import Mathlib

/-!
Verification of the spiral-vase G-code post-processor
(`src/libslic3r/GCode/SpiralVase.cpp`).

The per-layer transformer is embedded shallowly: a layer is a list of
parsed motion-command lines, geometry is over the real numbers
(`Real.sqrt` models the C `sqrt`), and the two `parse_buffer` passes of
`SpiralVase::process_layer` become structural recursions over the list
of lines (the C++ callbacks are folds over the lines in order).

The external line reader/model collaborator (`GCodeReader`) is not part
of the analysed source; its accessors are modelled from the spec as
per-line fields (see `GCodeLine`).
-/

open scoped Classical

noncomputable section

namespace Slic3r

/-- A 2-D point, mirroring `SpiralPoint` from `SpiralVase.hpp`. -/
structure SpiralPoint where
  x : ℝ
  y : ℝ

/-- Euclidean distance, mirroring `distance` (SpiralVase.cpp:9). -/
def distance (a b : SpiralPoint) : ℝ :=
  Real.sqrt ((a.x - b.x) ^ 2 + (a.y - b.y) ^ 2)

/-- Mirrors `subtract` (SpiralVase.cpp:28). -/
def subtract (a b : SpiralPoint) : SpiralPoint :=
  ⟨a.x - b.x, a.y - b.y⟩

/-- Mirrors `add` (SpiralVase.cpp:32). -/
def add (a b : SpiralPoint) : SpiralPoint :=
  ⟨a.x + b.x, a.y + b.y⟩

/-- Mirrors `scale` (SpiralVase.cpp:36). -/
def scale (a : SpiralPoint) (factor : ℝ) : SpiralPoint :=
  ⟨a.x * factor, a.y * factor⟩

/-- Mirrors `dot` (SpiralVase.cpp:40). -/
def dot (a b : SpiralPoint) : ℝ :=
  a.x * b.x + a.y * b.y

/-- The exact value of `std::numeric_limits<float>::max()`,
`(2 - 2^-23) * 2^127`. -/
def flt_max : ℝ := 2 ^ 128 - 2 ^ 104

/-- Mirrors `nearest` (SpiralVase.cpp:14): index of the nearest point of
the population, `-1` when the population is empty.  The fold state is
`(i, min, min_idx)`. -/
def nearest (p : SpiralPoint) (population : List SpiralPoint) : ℤ :=
  (population.foldl
    (fun st q =>
      let dist := distance q p
      if dist < st.2.1 then (st.1 + 1, dist, st.1) else (st.1 + 1, st.2.1, st.2.2))
    ((0 : ℤ), flt_max, (-1 : ℤ))).2.2

/-- Mirrors `nearest_point_on_line` (SpiralVase.cpp:44): the closest point
of segment `[a, b]` to `c` (projection parameter clamped to `[0,1]`),
paired with its distance to `c` (the C++ `dist` out-parameter). -/
def nearest_point_on_line (c a b : SpiralPoint) : SpiralPoint × ℝ :=
  let ab := subtract b a
  let ca := subtract c a
  let t0 := dot ca ab / dot ab ab
  let t1 := if t0 > 1 then 1 else t0
  let t2 := if t1 < 0 then 0 else t1
  let closest := add a (scale ab t2)
  (closest, distance c closest)

/-- The loop of `nearest_point_on_polygon` (SpiralVase.cpp:62): fold over
the consecutive segments, state `(min, closest, found)` initialised by the
caller to `(FLT_MAX, (0,0), false)`. -/
def npp_fold (p : SpiralPoint) :
    List (SpiralPoint × SpiralPoint) → ℝ × SpiralPoint × Bool → ℝ × SpiralPoint × Bool
  | [], st => st
  | ab :: segs, st =>
    let res := nearest_point_on_line p ab.1 ab.2
    if res.2 < st.1 then npp_fold p segs (res.2, res.1, true)
    else npp_fold p segs st

/-- Mirrors `nearest_point_on_polygon` (SpiralVase.cpp:55), returning
`(closest, found, dist)`.  With fewer than two stored points the function
returns immediately with `found = false` (the C++ leaves the caller's
`dist`, initialised to `0`, untouched there). -/
def nearest_point_on_polygon (p : SpiralPoint) (polygon : List SpiralPoint) :
    SpiralPoint × Bool × ℝ :=
  if polygon.length < 2 then (⟨0, 0⟩, false, 0)
  else
    let st := npp_fold p (polygon.zip polygon.tail) (flt_max, ⟨0, 0⟩, false)
    (st.2.1, st.2.2, st.1)

/-- Modelled from the spec: one parsed motion-command line as exposed by
the external `GCodeReader` collaborator (§6 of the spec), which is not
part of the analysed source.  `cmdG1` is `cmd_is("G1")`; `xv`, `yv` are
the values returned by `line.x()` / `line.y()`; `zF`, `eF` are the Z and
E fields (`line.has(..)` / raw value); `distXY`, `distZ`, `distE` are the
reader-derived displacements `dist_XY`, `dist_Z`, `dist_E` (the reader
tracks absolute machine position, so they are data of the parsed line);
`newZ` is `line.new_Z(reader)`. -/
structure GCodeLine where
  cmdG1 : Bool
  xv : ℝ
  yv : ℝ
  zF : Option ℝ
  eF : Option ℝ
  distXY : ℝ
  distZ : ℝ
  distE : ℝ
  newZ : ℝ

namespace GCodeLine

/-- Modelled from the spec: `line.has_z()`. -/
def has_z (l : GCodeLine) : Bool := l.zF.isSome

/-- Modelled from the spec: `line.has_e()`. -/
def has_e (l : GCodeLine) : Bool := l.eF.isSome

/-- Modelled from the spec: `line.e()` / `line.value(E)`. -/
def e (l : GCodeLine) : ℝ := l.eF.getD 0

/-- Modelled from the spec: `line.set(reader, Z, v)`; in-place field
mutation, the reader-derived fields belong to the already-parsed line. -/
def setZ (l : GCodeLine) (v : ℝ) : GCodeLine :=
  ⟨l.cmdG1, l.xv, l.yv, some v, l.eF, l.distXY, l.distZ, l.distE, l.newZ⟩

/-- Modelled from the spec: `line.set(reader, E, v)`. -/
def setE (l : GCodeLine) (v : ℝ) : GCodeLine :=
  ⟨l.cmdG1, l.xv, l.yv, l.zF, some v, l.distXY, l.distZ, l.distE, l.newZ⟩

/-- Modelled from the spec: `line.set(reader, X, v)`. -/
def setX (l : GCodeLine) (v : ℝ) : GCodeLine :=
  ⟨l.cmdG1, v, l.yv, l.zF, l.eF, l.distXY, l.distZ, l.distE, l.newZ⟩

/-- Modelled from the spec: `line.set(reader, Y, v)`. -/
def setY (l : GCodeLine) (v : ℝ) : GCodeLine :=
  ⟨l.cmdG1, l.xv, v, l.zF, l.eF, l.distXY, l.distZ, l.distE, l.newZ⟩

/-- Modelled from the spec: `line.extruding(reader)` is
`cmd_is("G1") && dist_E(reader) > 0`. -/
def extruding (l : GCodeLine) : Prop := l.cmdG1 = true ∧ 0 < l.distE

end GCodeLine

/-- State of the measuring pass (SpiralVase.cpp:94-116): accumulated
total XY length of extruding moves, accumulated layer height, first
Z-move target, and the `set_z` latch. -/
structure MeasureState where
  total : ℝ
  height : ℝ
  z : ℝ
  set_z : Bool

/-- Initial measuring state. -/
def initMeasure : MeasureState := ⟨0, 0, 0, false⟩

/-- The measuring pass (the first `parse_buffer` callback,
SpiralVase.cpp:102-115): for `G1` lines, extruding moves accumulate
`dist_XY` into the total; otherwise Z-carrying lines accumulate `dist_Z`
into the layer height and the first of them records `new_Z`. -/
def measureLayer : MeasureState → List GCodeLine → MeasureState
  | s, [] => s
  | s, l :: ls =>
    if l.cmdG1 then
      if 0 < l.distE then
        measureLayer ⟨s.total + l.distXY, s.height, s.z, s.set_z⟩ ls
      else if l.zF.isSome then
        measureLayer ⟨s.total, s.height + l.distZ, if s.set_z then s.z else l.newZ, true⟩ ls
      else measureLayer s ls
    else measureLayer s ls

/-- The per-call constants captured by the rewriting callback
(SpiralVase.cpp:135): corrected entry Z, measured totals, the phase
flags, the smoothing threshold and the previous layer's point set. -/
structure RewriteCtx where
  z : ℝ
  total_layer_length : ℝ
  layer_height : ℝ
  transition : Bool
  last_layer : Bool
  smooth_spiral : Bool
  max_xy_smoothing : ℝ
  previous_layer : Option (List SpiralPoint)

/-- What one line contributes in the rewriting pass: lines appended to
`new_gcode`, lines appended to `transition_gcode`, and the updated
mutable state `(len, current_layer, last_point)`. -/
structure StepResult where
  out_new : List GCodeLine
  out_trans : List GCodeLine
  len : ℝ
  current_layer : List SpiralPoint
  last_point : SpiralPoint

/-- One iteration of the rewriting callback (SpiralVase.cpp:137-202).
A `G1` with a Z field is rewritten to the corrected entry Z and emitted;
a `G1` horizontal move with an E field gets the cumulative-length
`factor`, the transition taper or the last-layer ramp-down clone, the Z
ramp and the optional XY smoothing; a horizontal move without E is
suppressed; everything else passes through (duplicated into the side
buffer on the last layer). -/
def rewriteStep (ctx : RewriteCtx) (len : ℝ) (current_layer : List SpiralPoint)
    (last_point : SpiralPoint) (line : GCodeLine) : StepResult :=
  if line.cmdG1 then
    if line.has_z then
      ⟨[line.setZ ctx.z], [], len, current_layer, last_point⟩
    else if 0 < line.distXY then
      if line.has_e then
        let dist_XY := line.distXY
        let len' := len + dist_XY
        let factor := len' / ctx.total_layer_length
        let line1 := if ctx.transition then line.setE (line.e * factor) else line
        let tbuf : List GCodeLine :=
          if ctx.transition = false ∧ ctx.last_layer = true then
            [line.setE (line.e * (1 - factor))]
          else []
        let line2 := line1.setZ (ctx.z + factor * ctx.layer_height)
        if ctx.smooth_spiral then
          let p : SpiralPoint := ⟨line2.xv, line2.yv⟩
          let cl' := current_layer ++ [p]
          match ctx.previous_layer with
          | some prev =>
            let npres := nearest_point_on_polygon p prev
            if npres.2.1 = true ∧ npres.2.2 < ctx.max_xy_smoothing then
              let target := add (scale npres.1 (1 - factor)) (scale p factor)
              let line3 := (line2.setX target.x).setY target.y
              let modified_dist_XY := distance last_point target
              let line4 := line3.setE (line3.e * modified_dist_XY / dist_XY)
              ⟨[line4], tbuf, len', cl', target⟩
            else ⟨[line2], tbuf, len', cl', p⟩
          | none => ⟨[line2], tbuf, len', cl', last_point⟩
        else ⟨[line2], tbuf, len', current_layer, last_point⟩
      else ⟨[], [], len, current_layer, last_point⟩
    else ⟨[line], if ctx.last_layer then [line] else [], len, current_layer, last_point⟩
  else ⟨[line], if ctx.last_layer then [line] else [], len, current_layer, last_point⟩

/-- Result of the rewriting pass: the two output buffers and the final
mutable state. -/
structure RewriteResult where
  new_gcode : List GCodeLine
  transition_gcode : List GCodeLine
  len : ℝ
  current_layer : List SpiralPoint
  last_point : SpiralPoint

/-- The rewriting pass (the second `parse_buffer`, SpiralVase.cpp:135-203)
as the fold of `rewriteStep` over the layer's lines in order, each line's
output appended to the respective buffer. -/
def rewriteLayer (ctx : RewriteCtx) :
    ℝ → List SpiralPoint → SpiralPoint → List GCodeLine → RewriteResult
  | len, cl, lp, [] => ⟨[], [], len, cl, lp⟩
  | len, cl, lp, line :: rest =>
    let s := rewriteStep ctx len cl lp line
    let r := rewriteLayer ctx s.len s.current_layer s.last_point rest
    ⟨s.out_new ++ r.new_gcode, s.out_trans ++ r.transition_gcode,
      r.len, r.current_layer, r.last_point⟩

/-- The transformer instance (class `SpiralVase`): the enables, the
transition-layer flag, the relative-E configuration and the retained
previous-layer point set (`m_previous_layer`, a null-able pointer). -/
structure SpiralVase where
  m_enabled : Bool
  m_smooth_spiral : Bool
  m_transition_layer : Bool
  use_relative_e_distances : Bool
  m_previous_layer : Option (List SpiralPoint)

/-- The rewrite context built by `process_layer` (SpiralVase.cpp:118-134)
from the measured scalars: entry Z is the first Z-move target minus the
accumulated layer height; tapering requires relative E distances; the
smoothing threshold is the fixed constant `1`. -/
def processCtx (sv : SpiralVase) (ms : MeasureState) (last_layer : Bool) : RewriteCtx :=
  ⟨ms.z - ms.height, ms.total, ms.height,
    sv.m_transition_layer && sv.use_relative_e_distances, last_layer,
    sv.m_smooth_spiral, 1, sv.m_previous_layer⟩

/-- The initial `last_point` (SpiralVase.cpp:134): the last stored point
of the previous layer when one exists, else `(0,0)`. -/
def initLastPoint (prev : Option (List SpiralPoint)) : SpiralPoint :=
  match prev with
  | some pl => pl.getLast?.getD ⟨0, 0⟩
  | none => ⟨0, 0⟩

/-- `SpiralVase::process_layer` (SpiralVase.cpp:76-209): disabled
instances pass the layer through; enabled ones measure, rewrite, emit
`new_gcode ++ transition_gcode` and retain this layer's point set. -/
def process_layer (sv : SpiralVase) (gcode : List GCodeLine) (last_layer : Bool) :
    List GCodeLine × SpiralVase :=
  if sv.m_enabled then
    let ms := measureLayer initMeasure gcode
    let ctx := processCtx sv ms last_layer
    let r := rewriteLayer ctx 0 [] (initLastPoint sv.m_previous_layer) gcode
    (r.new_gcode ++ r.transition_gcode,
      ⟨sv.m_enabled, sv.m_smooth_spiral, sv.m_transition_layer,
        sv.use_relative_e_distances, some r.current_layer⟩)
  else (gcode, sv)

/-! ## Spec-side reference definitions

The following definitions follow the spec's words (§4.2, §8) and are
compared against the source embedding above in the refinement theorems
below. -/

/-- Following the spec (§4.2 step 4): an extruding horizontal command is
a motion command without a Z field, with positive horizontal displacement
and with an extrusion field — exactly the commands the rewriter's core
case handles. -/
def extrudingHorizontal (l : GCodeLine) : Prop :=
  l.cmdG1 = true ∧ l.zF = none ∧ 0 < l.distXY ∧ l.eF.isSome = true

/-- A value computed for every extruding horizontal command of a layer
from the running cumulative length `len + d` at that command. -/
def overExtruding (g : ℝ → GCodeLine → ℝ) : ℝ → List GCodeLine → List ℝ
  | _, [] => []
  | len, l :: ls =>
    if extrudingHorizontal l then
      g (len + l.distXY) l :: overExtruding g (len + l.distXY) ls
    else overExtruding g len ls

/-- Following the spec (§4.2 Z ramp, §8 Monotonic Z): the Z values
`start_z + factor * total_z_height` assigned to the extruding horizontal
commands, with `factor` the cumulative length over `total_xy_length`. -/
def rampZs (z L h : ℝ) : ℝ → List GCodeLine → List ℝ :=
  overExtruding fun c _ => z + c / L * h

/-- Following the spec (§4.2 transition tapering): the extrusion values of
the main output — scaled by `factor` on a transition layer, the original
values otherwise. -/
def mainEs (transition : Bool) (L : ℝ) : ℝ → List GCodeLine → List ℝ :=
  overExtruding fun c l => if transition then l.e * (c / L) else l.e

/-- Following the spec (§4.2 final-layer ramp-down): the cloned extrusion
values `e * (1 - factor)` of the side buffer. -/
def rampDownEs (L : ℝ) : ℝ → List GCodeLine → List ℝ :=
  overExtruding fun c l => l.e * (1 - c / L)

/-- Following the spec (§3, §8 point-set handoff): the layer point set —
one point per extruding horizontal command, in emission order, holding
the command's original target coordinates. -/
def layerPoints (ls : List GCodeLine) : List SpiralPoint :=
  ls.filterMap fun l => if extrudingHorizontal l then some ⟨l.xv, l.yv⟩ else none

/-- The original extrusion fields of the extruding horizontal commands. -/
def origEs (ls : List GCodeLine) : List ℝ :=
  ls.filterMap fun l => if extrudingHorizontal l then l.eF else none

/-- Total horizontal length of the extruding horizontal commands. -/
def extrudingLen : List GCodeLine → ℝ
  | [] => 0
  | l :: ls => (if extrudingHorizontal l then l.distXY else 0) + extrudingLen ls

/-- The cumulative length at, and identity of, the first extruding
horizontal command. -/
def firstWithCum : ℝ → List GCodeLine → Option (ℝ × GCodeLine)
  | _, [] => none
  | len, l :: ls =>
    if extrudingHorizontal l then some (len + l.distXY, l)
    else firstWithCum len ls

/-- The cumulative length at, and identity of, the last extruding
horizontal command. -/
def lastWithCum : ℝ → List GCodeLine → Option (ℝ × GCodeLine)
  | _, [] => none
  | len, l :: ls =>
    if extrudingHorizontal l then
      match lastWithCum (len + l.distXY) ls with
      | some r => some r
      | none => some (len + l.distXY, l)
    else lastWithCum len ls

/-! ## Output observables

Projections reading the interesting values back off an emitted line
stream.  Rewritten extruding horizontal commands are the emitted lines
with an E field, positive horizontal displacement and a (ramped) Z
field; last-layer clones are those without a Z field. -/

/-- The Z value assigned to an emitted extruding horizontal command. -/
def extrZ (l : GCodeLine) : Option ℝ :=
  if l.cmdG1 = true ∧ 0 < l.distXY ∧ l.eF.isSome = true then l.zF else none

/-- The extrusion value of an emitted (main-output, hence Z-ramped)
extruding horizontal command. -/
def mainE (l : GCodeLine) : Option ℝ :=
  if l.cmdG1 = true ∧ 0 < l.distXY ∧ l.zF.isSome = true then l.eF else none

/-- The extrusion value of a side-buffer clone (cloned before the Z ramp,
hence without a Z field). -/
def sideE (l : GCodeLine) : Option ℝ :=
  if l.cmdG1 = true ∧ 0 < l.distXY ∧ l.zF = none then l.eF else none

/-- Structural well-formedness of a parsed line, as guaranteed by the
reader collaborator and the layer structure (§6): displacements are
non-negative, a Z-carrying line has no E field, and a horizontally moving
`G1` extrudes exactly when it carries an E field. -/
def wfLine (l : GCodeLine) : Prop :=
  0 ≤ l.distXY ∧ (l.zF.isSome = true → l.eF = none) ∧
    (0 < l.distXY → (0 < l.distE ↔ (l.cmdG1 = true ∧ l.eF.isSome = true)))

/-! ## Case analysis of one rewriting step -/

theorem rewriteStep_zline (ctx : RewriteCtx) (len : ℝ) (cl : List SpiralPoint)
    (lp : SpiralPoint) (line : GCodeLine) (h1 : line.cmdG1 = true)
    (h2 : line.zF.isSome = true) :
    rewriteStep ctx len cl lp line = ⟨[line.setZ ctx.z], [], len, cl, lp⟩ := by
  unfold rewriteStep
  simp [GCodeLine.has_z, h1, h2]

theorem rewriteStep_travel (ctx : RewriteCtx) (len : ℝ) (cl : List SpiralPoint)
    (lp : SpiralPoint) (line : GCodeLine) (h1 : line.cmdG1 = true)
    (h2 : line.zF = none) (h3 : 0 < line.distXY) (h4 : line.eF = none) :
    rewriteStep ctx len cl lp line = ⟨[], [], len, cl, lp⟩ := by
  unfold rewriteStep
  simp [GCodeLine.has_z, GCodeLine.has_e, h1, h2, h3, h4]

theorem rewriteStep_pass (ctx : RewriteCtx) (len : ℝ) (cl : List SpiralPoint)
    (lp : SpiralPoint) (line : GCodeLine)
    (h : line.cmdG1 = false ∨ (line.zF = none ∧ ¬ 0 < line.distXY)) :
    rewriteStep ctx len cl lp line =
      ⟨[line], if ctx.last_layer then [line] else [], len, cl, lp⟩ := by
  unfold rewriteStep
  rcases h with h | ⟨h2, h3⟩
  · simp [h]
  · rcases hc : line.cmdG1 with _ | _
    · simp [hc]
    · simp [hc, GCodeLine.has_z, h2, h3]

theorem rewriteStep_extr (ctx : RewriteCtx) (len : ℝ) (cl : List SpiralPoint)
    (lp : SpiralPoint) (line : GCodeLine) (hB : extrudingHorizontal line) :
    ∃ l' lp', rewriteStep ctx len cl lp line =
      ⟨[l'],
        if ctx.transition = false ∧ ctx.last_layer = true then
          [line.setE (line.e * (1 - (len + line.distXY) / ctx.total_layer_length))]
        else [],
        len + line.distXY,
        if ctx.smooth_spiral then cl ++ [⟨line.xv, line.yv⟩] else cl, lp'⟩ ∧
      l'.cmdG1 = true ∧ l'.distXY = line.distXY ∧
      l'.zF = some (ctx.z + (len + line.distXY) / ctx.total_layer_length * ctx.layer_height) ∧
      l'.eF.isSome = true := by
  obtain ⟨h1, h2, h3, h4⟩ := hB
  unfold rewriteStep
  by_cases ht : ctx.transition = true <;> by_cases hs : ctx.smooth_spiral = true <;>
    simp only [GCodeLine.has_z, GCodeLine.has_e, GCodeLine.setE, GCodeLine.setZ,
      GCodeLine.setX, GCodeLine.setY, h1, h2, h3, h4, ht, hs, Option.isSome_none,
      Bool.not_eq_true, Bool.true_eq_false, Bool.false_eq_true, false_and, true_and,
      and_true, and_false, if_true, if_false, ite_true, ite_false]
  all_goals
    try exact ⟨_, lp, rfl, rfl, rfl, rfl, rfl⟩
  all_goals
    try exact ⟨_, lp, rfl, rfl, rfl, rfl, h4⟩
  all_goals
    cases hp : ctx.previous_layer with
    | none =>
      dsimp only
      first
      | exact ⟨_, lp, rfl, rfl, rfl, rfl, rfl⟩
      | exact ⟨_, lp, rfl, rfl, rfl, rfl, h4⟩
    | some prev =>
      dsimp only
      by_cases htr : (nearest_point_on_polygon ⟨line.xv, line.yv⟩ prev).2.1 = true ∧
          (nearest_point_on_polygon ⟨line.xv, line.yv⟩ prev).2.2 < ctx.max_xy_smoothing
      · rw [if_pos htr]
        exact ⟨_, _, rfl, rfl, rfl, rfl, rfl⟩
      · rw [if_neg htr]
        first
        | exact ⟨_, _, rfl, rfl, rfl, rfl, rfl⟩
        | exact ⟨_, _, rfl, rfl, rfl, rfl, h4⟩

/-- Exhaustive classification of a line by the rewriting callback's
branches: Z-carrying `G1`, extruding horizontal `G1`, travel `G1`, or
pass-through. -/
theorem line_cases (l : GCodeLine) :
    (l.cmdG1 = true ∧ l.zF.isSome = true) ∨ extrudingHorizontal l ∨
      (l.cmdG1 = true ∧ l.zF = none ∧ 0 < l.distXY ∧ l.eF = none) ∨
      (l.cmdG1 = false ∨ (l.zF = none ∧ ¬ 0 < l.distXY)) := by
  by_cases hc : l.cmdG1 = true
  · by_cases hz : l.zF.isSome = true
    · exact Or.inl ⟨hc, hz⟩
    · have hzn : l.zF = none := Option.not_isSome_iff_eq_none.mp (by simpa using hz)
      by_cases hd : 0 < l.distXY
      · by_cases he : l.eF.isSome = true
        · exact Or.inr (Or.inl ⟨hc, hzn, hd, he⟩)
        · exact Or.inr (Or.inr (Or.inl
            ⟨hc, hzn, hd, Option.not_isSome_iff_eq_none.mp (by simpa using he)⟩))
      · exact Or.inr (Or.inr (Or.inr (Or.inr ⟨hzn, hd⟩)))
  · exact Or.inr (Or.inr (Or.inr (Or.inl (by simpa using hc))))

theorem overExtruding_nil (g : ℝ → GCodeLine → ℝ) (len : ℝ) :
    overExtruding g len [] = [] := rfl

theorem overExtruding_cons_pos (g : ℝ → GCodeLine → ℝ) (len : ℝ) (l : GCodeLine)
    (ls : List GCodeLine) (h : extrudingHorizontal l) :
    overExtruding g len (l :: ls) =
      g (len + l.distXY) l :: overExtruding g (len + l.distXY) ls := by
  simp [overExtruding, h]

theorem overExtruding_cons_neg (g : ℝ → GCodeLine → ℝ) (len : ℝ) (l : GCodeLine)
    (ls : List GCodeLine) (h : ¬ extrudingHorizontal l) :
    overExtruding g len (l :: ls) = overExtruding g len ls := by
  simp [overExtruding, h]

theorem not_extrudingHorizontal_of_has_z {l : GCodeLine} (h : l.zF.isSome = true) :
    ¬ extrudingHorizontal l := by
  intro hB
  rw [hB.2.1] at h
  simp at h

theorem not_extrudingHorizontal_of_travel {l : GCodeLine} (h : l.eF = none) :
    ¬ extrudingHorizontal l := by
  intro hB
  obtain ⟨_, _, _, h4⟩ := hB
  rw [h] at h4
  simp at h4

theorem not_extrudingHorizontal_of_pass {l : GCodeLine}
    (h : l.cmdG1 = false ∨ (l.zF = none ∧ ¬ 0 < l.distXY)) :
    ¬ extrudingHorizontal l := by
  intro hB
  rcases h with h | ⟨_, h⟩
  · rw [hB.1] at h
    simp at h
  · exact h hB.2.2.1

/-- No line of the side buffer is picked up by `extrZ`: clones are taken
before the Z ramp (no Z field yet) and duplicated pass-through lines are
not extruding horizontal moves. -/
theorem rewriteLayer_trans_extrZ (ctx : RewriteCtx) (ls : List GCodeLine) :
    ∀ len cl lp, (rewriteLayer ctx len cl lp ls).transition_gcode.filterMap extrZ = [] := by
  induction ls with
  | nil => intro len cl lp; rfl
  | cons l ls ih =>
    intro len cl lp
    rcases line_cases l with ⟨h1, h2⟩ | hB | ⟨h1, h2, h3, h4⟩ | hpass
    · simp only [rewriteLayer, rewriteStep_zline ctx len cl lp l h1 h2]
      simp [ih]
    · obtain ⟨l', lp', heq, hcmd, hdist, hzF, heS⟩ := rewriteStep_extr ctx len cl lp l hB
      simp only [rewriteLayer, heq]
      by_cases hc : ctx.transition = false ∧ ctx.last_layer = true
      · simp [hc, ih, extrZ, GCodeLine.setE, hB.1, hB.2.1, hB.2.2.1]
      · simp [hc, ih]
    · simp only [rewriteLayer, rewriteStep_travel ctx len cl lp l h1 h2 h3 h4]
      simp [ih]
    · simp only [rewriteLayer, rewriteStep_pass ctx len cl lp l hpass]
      by_cases hl : ctx.last_layer = true
      · rcases hpass with h | ⟨_, h⟩ <;> simp [hl, ih, extrZ, h]
      · simp [hl, ih]

/-- Refinement of the Z ramp: the Z values assigned in `new_gcode` to the
extruding horizontal commands are exactly the spec's
`start_z + factor * total_z_height` sequence. -/
theorem rewriteLayer_new_extrZ (ctx : RewriteCtx) (ls : List GCodeLine) :
    ∀ len cl lp, (∀ l ∈ ls, l.zF.isSome = true → l.eF = none) →
      (rewriteLayer ctx len cl lp ls).new_gcode.filterMap extrZ =
        rampZs ctx.z ctx.total_layer_length ctx.layer_height len ls := by
  induction ls with
  | nil => intro len cl lp _; rfl
  | cons l ls ih =>
    intro len cl lp hwf
    have hwf' : ∀ l' ∈ ls, l'.zF.isSome = true → l'.eF = none :=
      fun l' hm => hwf l' (List.mem_cons_of_mem l hm)
    rcases line_cases l with ⟨h1, h2⟩ | hB | ⟨h1, h2, h3, h4⟩ | hpass
    · have he : l.eF = none := hwf l (List.mem_cons_self l ls) h2
      simp only [rewriteLayer, rewriteStep_zline ctx len cl lp l h1 h2]
      rw [rampZs, overExtruding_cons_neg _ _ _ _ (not_extrudingHorizontal_of_has_z h2)]
      simp [ih len cl lp hwf', extrZ, GCodeLine.setZ, he, rampZs]
    · obtain ⟨l', lp', heq, hcmd, hdist, hzF, heS⟩ := rewriteStep_extr ctx len cl lp l hB
      simp only [rewriteLayer, heq]
      rw [rampZs, overExtruding_cons_pos _ _ _ _ hB]
      have hZ : extrZ l' = some (ctx.z + (len + l.distXY) / ctx.total_layer_length *
          ctx.layer_height) := by
        rw [extrZ, if_pos ⟨hcmd, by rw [hdist]; exact hB.2.2.1, heS⟩, hzF]
      simp [hZ, ih _ _ _ hwf', rampZs]
    · simp only [rewriteLayer, rewriteStep_travel ctx len cl lp l h1 h2 h3 h4]
      rw [rampZs, overExtruding_cons_neg _ _ _ _ (not_extrudingHorizontal_of_travel h4)]
      simp [ih len cl lp hwf', rampZs]
    · simp only [rewriteLayer, rewriteStep_pass ctx len cl lp l hpass]
      rw [rampZs, overExtruding_cons_neg _ _ _ _ (not_extrudingHorizontal_of_pass hpass)]
      rcases hpass with h | ⟨_, h⟩ <;>
        simp [ih len cl lp hwf', extrZ, h, rampZs]

theorem eF_eq_some_e {l : GCodeLine} (h : l.eF.isSome = true) : l.eF = some l.e := by
  cases he : l.eF with
  | some v => simp [GCodeLine.e, he]
  | none => rw [he] at h; simp at h

/-- The rewriting step of an extruding horizontal command with smoothing
disabled, in closed form. -/
theorem rewriteStep_extr_nosmooth (ctx : RewriteCtx) (len : ℝ) (cl : List SpiralPoint)
    (lp : SpiralPoint) (line : GCodeLine) (hB : extrudingHorizontal line)
    (hs : ctx.smooth_spiral = false) :
    rewriteStep ctx len cl lp line =
      ⟨[(if ctx.transition then
            line.setE (line.e * ((len + line.distXY) / ctx.total_layer_length))
          else line).setZ
          (ctx.z + (len + line.distXY) / ctx.total_layer_length * ctx.layer_height)],
        if ctx.transition = false ∧ ctx.last_layer = true then
          [line.setE (line.e * (1 - (len + line.distXY) / ctx.total_layer_length))]
        else [],
        len + line.distXY, cl, lp⟩ := by
  obtain ⟨h1, h2, h3, h4⟩ := hB
  unfold rewriteStep
  simp [GCodeLine.has_z, GCodeLine.has_e, h1, h2, h3, h4, hs]

/-- On a non-final layer the side buffer stays empty. -/
theorem rewriteLayer_trans_nonlast (ctx : RewriteCtx) (h : ctx.last_layer = false)
    (ls : List GCodeLine) :
    ∀ len cl lp, (rewriteLayer ctx len cl lp ls).transition_gcode = [] := by
  induction ls with
  | nil => intro len cl lp; rfl
  | cons l ls ih =>
    intro len cl lp
    rcases line_cases l with ⟨h1, h2⟩ | hB | ⟨h1, h2, h3, h4⟩ | hpass
    · simp only [rewriteLayer, rewriteStep_zline ctx len cl lp l h1 h2]
      simp [ih]
    · obtain ⟨l', lp', heq, _, _, _, _⟩ := rewriteStep_extr ctx len cl lp l hB
      simp only [rewriteLayer, heq]
      simp [h, ih]
    · simp only [rewriteLayer, rewriteStep_travel ctx len cl lp l h1 h2 h3 h4]
      simp [ih]
    · simp only [rewriteLayer, rewriteStep_pass ctx len cl lp l hpass]
      simp [h, ih]

/-- The point set built while rewriting: with smoothing enabled, exactly
one point per extruding horizontal command (its original target), in
order; with smoothing disabled, nothing is stored. -/
theorem rewriteLayer_current_layer (ctx : RewriteCtx) (ls : List GCodeLine) :
    ∀ len cl lp, (rewriteLayer ctx len cl lp ls).current_layer =
      if ctx.smooth_spiral = true then cl ++ layerPoints ls else cl := by
  induction ls with
  | nil => intro len cl lp; simp [rewriteLayer, layerPoints]
  | cons l ls ih =>
    intro len cl lp
    rcases line_cases l with ⟨h1, h2⟩ | hB | ⟨h1, h2, h3, h4⟩ | hpass
    · simp only [rewriteLayer, rewriteStep_zline ctx len cl lp l h1 h2]
      simp [ih, layerPoints, not_extrudingHorizontal_of_has_z h2]
    · obtain ⟨l', lp', heq, _, _, _, _⟩ := rewriteStep_extr ctx len cl lp l hB
      simp only [rewriteLayer, heq]
      rcases hsm : ctx.smooth_spiral with _ | _ <;>
        simp [ih, hsm, layerPoints, hB]
    · simp only [rewriteLayer, rewriteStep_travel ctx len cl lp l h1 h2 h3 h4]
      simp [ih, layerPoints, not_extrudingHorizontal_of_travel h4]
    · simp only [rewriteLayer, rewriteStep_pass ctx len cl lp l hpass]
      simp [ih, layerPoints, not_extrudingHorizontal_of_pass hpass]

/-- With smoothing disabled, the extrusion values of the rewritten
extruding horizontal commands in `new_gcode` are the spec's: scaled by
`factor` on a transition layer, otherwise the original values. -/
theorem rewriteLayer_new_mainE (ctx : RewriteCtx) (hs : ctx.smooth_spiral = false)
    (ls : List GCodeLine) :
    ∀ len cl lp, (∀ l ∈ ls, l.zF.isSome = true → l.eF = none) →
      (rewriteLayer ctx len cl lp ls).new_gcode.filterMap mainE =
        mainEs ctx.transition ctx.total_layer_length len ls := by
  induction ls with
  | nil => intro len cl lp _; rfl
  | cons l ls ih =>
    intro len cl lp hwf
    have hwf' : ∀ l' ∈ ls, l'.zF.isSome = true → l'.eF = none :=
      fun l' hm => hwf l' (List.mem_cons_of_mem l hm)
    rcases line_cases l with ⟨h1, h2⟩ | hB | ⟨h1, h2, h3, h4⟩ | hpass
    · have he : l.eF = none := hwf l (List.mem_cons_self l ls) h2
      simp only [rewriteLayer, rewriteStep_zline ctx len cl lp l h1 h2]
      rw [mainEs, overExtruding_cons_neg _ _ _ _ (not_extrudingHorizontal_of_has_z h2)]
      simp [ih len cl lp hwf', mainE, GCodeLine.setZ, he, mainEs]
    · simp only [rewriteLayer, rewriteStep_extr_nosmooth ctx len cl lp l hB hs]
      rw [mainEs, overExtruding_cons_pos _ _ _ _ hB]
      have hme : mainE ((if ctx.transition then
          l.setE (l.e * ((len + l.distXY) / ctx.total_layer_length)) else l).setZ
          (ctx.z + (len + l.distXY) / ctx.total_layer_length * ctx.layer_height)) =
          some (if ctx.transition then
            l.e * ((len + l.distXY) / ctx.total_layer_length) else l.e) := by
        rcases ht : ctx.transition with _ | _ <;>
          simp [ht, mainE, GCodeLine.setZ, GCodeLine.setE, hB.1, hB.2.2.1,
            eF_eq_some_e hB.2.2.2]
      simp [hme, ih _ _ _ hwf', mainEs]
    · simp only [rewriteLayer, rewriteStep_travel ctx len cl lp l h1 h2 h3 h4]
      rw [mainEs, overExtruding_cons_neg _ _ _ _ (not_extrudingHorizontal_of_travel h4)]
      simp [ih len cl lp hwf', mainEs]
    · simp only [rewriteLayer, rewriteStep_pass ctx len cl lp l hpass]
      rw [mainEs, overExtruding_cons_neg _ _ _ _ (not_extrudingHorizontal_of_pass hpass)]
      rcases hpass with h | ⟨_, h⟩ <;>
        simp [ih len cl lp hwf', mainE, h, mainEs]

/-- No side-buffer line is picked up by `mainE`: clones carry no Z field
and duplicated pass-through lines are not extruding horizontal moves. -/
theorem rewriteLayer_trans_mainE (ctx : RewriteCtx) (ls : List GCodeLine) :
    ∀ len cl lp, (rewriteLayer ctx len cl lp ls).transition_gcode.filterMap mainE = [] := by
  induction ls with
  | nil => intro len cl lp; rfl
  | cons l ls ih =>
    intro len cl lp
    rcases line_cases l with ⟨h1, h2⟩ | hB | ⟨h1, h2, h3, h4⟩ | hpass
    · simp only [rewriteLayer, rewriteStep_zline ctx len cl lp l h1 h2]
      simp [ih]
    · obtain ⟨l', lp', heq, _, _, _, _⟩ := rewriteStep_extr ctx len cl lp l hB
      simp only [rewriteLayer, heq]
      by_cases hc : ctx.transition = false ∧ ctx.last_layer = true
      · simp [hc, ih, mainE, GCodeLine.setE, hB.2.1]
      · simp [hc, ih]
    · simp only [rewriteLayer, rewriteStep_travel ctx len cl lp l h1 h2 h3 h4]
      simp [ih]
    · simp only [rewriteLayer, rewriteStep_pass ctx len cl lp l hpass]
      by_cases hl : ctx.last_layer = true
      · rcases hpass with h | ⟨_, h⟩ <;> simp [hl, ih, mainE, h]
      · simp [hl, ih]

/-- No `new_gcode` line is picked up by `sideE`: every rewritten
extruding horizontal command has its Z field set by the ramp. -/
theorem rewriteLayer_new_sideE (ctx : RewriteCtx) (ls : List GCodeLine) :
    ∀ len cl lp, (rewriteLayer ctx len cl lp ls).new_gcode.filterMap sideE = [] := by
  induction ls with
  | nil => intro len cl lp; rfl
  | cons l ls ih =>
    intro len cl lp
    rcases line_cases l with ⟨h1, h2⟩ | hB | ⟨h1, h2, h3, h4⟩ | hpass
    · simp only [rewriteLayer, rewriteStep_zline ctx len cl lp l h1 h2]
      simp [ih, sideE, GCodeLine.setZ]
    · obtain ⟨l', lp', heq, hcmd, hdist, hzF, heS⟩ := rewriteStep_extr ctx len cl lp l hB
      simp only [rewriteLayer, heq]
      simp [ih, sideE, hzF]
    · simp only [rewriteLayer, rewriteStep_travel ctx len cl lp l h1 h2 h3 h4]
      simp [ih]
    · simp only [rewriteLayer, rewriteStep_pass ctx len cl lp l hpass]
      rcases hpass with h | ⟨_, h⟩ <;> simp [ih, sideE, h]

/-- Refinement of the final-layer ramp-down: when the layer is the last
and not the transition layer, the side buffer's clone extrusions are
exactly the spec's `e * (1 - factor)` sequence; otherwise no clones are
made. -/
theorem rewriteLayer_trans_sideE (ctx : RewriteCtx) (ls : List GCodeLine) :
    ∀ len cl lp, (rewriteLayer ctx len cl lp ls).transition_gcode.filterMap sideE =
      if ctx.transition = false ∧ ctx.last_layer = true then
        rampDownEs ctx.total_layer_length len ls
      else [] := by
  induction ls with
  | nil =>
    intro len cl lp
    by_cases hc : ctx.transition = false ∧ ctx.last_layer = true <;>
      simp [rewriteLayer, hc, rampDownEs, overExtruding_nil]
  | cons l ls ih =>
    intro len cl lp
    rcases line_cases l with ⟨h1, h2⟩ | hB | ⟨h1, h2, h3, h4⟩ | hpass
    · simp only [rewriteLayer, rewriteStep_zline ctx len cl lp l h1 h2]
      by_cases hc : ctx.transition = false ∧ ctx.last_layer = true <;>
        simp [hc, ih, rampDownEs,
          overExtruding_cons_neg _ _ _ _ (not_extrudingHorizontal_of_has_z h2)]
    · obtain ⟨l', lp', heq, _, _, _, _⟩ := rewriteStep_extr ctx len cl lp l hB
      simp only [rewriteLayer, heq]
      by_cases hc : ctx.transition = false ∧ ctx.last_layer = true
      · have hse : sideE (l.setE (l.e * (1 - (len + l.distXY) / ctx.total_layer_length))) =
            some (l.e * (1 - (len + l.distXY) / ctx.total_layer_length)) := by
          simp [sideE, GCodeLine.setE, hB.1, hB.2.1, hB.2.2.1]
        simp [hc, ih, hse, rampDownEs, overExtruding_cons_pos _ _ _ _ hB]
      · simp [hc, ih]
    · simp only [rewriteLayer, rewriteStep_travel ctx len cl lp l h1 h2 h3 h4]
      by_cases hc : ctx.transition = false ∧ ctx.last_layer = true <;>
        simp [hc, ih, rampDownEs,
          overExtruding_cons_neg _ _ _ _ (not_extrudingHorizontal_of_travel h4)]
    · have hnB := not_extrudingHorizontal_of_pass hpass
      simp only [rewriteLayer, rewriteStep_pass ctx len cl lp l hpass]
      by_cases hc : ctx.transition = false ∧ ctx.last_layer = true <;>
        by_cases hl : ctx.last_layer = true <;>
          rcases hpass with h | ⟨_, h⟩ <;>
            simp [hc, hl, ih, sideE, h, rampDownEs, overExtruding_cons_neg _ _ _ _ hnB]

/-- Every motion command of the side buffer carries no Z field: clones
are taken before the Z ramp. -/
theorem rewriteLayer_trans_zF (ctx : RewriteCtx) (ls : List GCodeLine) :
    ∀ len cl lp, ∀ l' ∈ (rewriteLayer ctx len cl lp ls).transition_gcode,
      l'.cmdG1 = true → l'.zF = none := by
  induction ls with
  | nil => intro len cl lp l' hm; simp [rewriteLayer] at hm
  | cons l ls ih =>
    intro len cl lp l' hm hg
    rcases line_cases l with ⟨h1, h2⟩ | hB | ⟨h1, h2, h3, h4⟩ | hpass
    · simp only [rewriteLayer, rewriteStep_zline ctx len cl lp l h1 h2] at hm
      exact ih _ _ _ l' (by simpa using hm) hg
    · obtain ⟨l'', lp', heq, _, _, _, _⟩ := rewriteStep_extr ctx len cl lp l hB
      simp only [rewriteLayer, heq] at hm
      by_cases hc : ctx.transition = false ∧ ctx.last_layer = true
      · rw [if_pos hc] at hm
        simp only [List.cons_append, List.nil_append, List.mem_cons] at hm
        rcases hm with rfl | hm
        · simpa [GCodeLine.setE] using hB.2.1
        · exact ih _ _ _ l' hm hg
      · rw [if_neg hc] at hm
        exact ih _ _ _ l' (by simpa using hm) hg
    · simp only [rewriteLayer, rewriteStep_travel ctx len cl lp l h1 h2 h3 h4] at hm
      exact ih _ _ _ l' (by simpa using hm) hg
    · simp only [rewriteLayer, rewriteStep_pass ctx len cl lp l hpass] at hm
      by_cases hl : ctx.last_layer = true
      · rw [if_pos hl] at hm
        simp only [List.cons_append, List.nil_append, List.mem_cons] at hm
        rcases hm with rfl | hm
        · rcases hpass with h | ⟨hz, _⟩
          · rw [hg] at h; simp at h
          · exact hz
        · exact ih _ _ _ l' hm hg
      · rw [if_neg hl] at hm
        exact ih _ _ _ l' (by simpa using hm) hg

/-! ## Arithmetic facts about the spec-side sequences -/

theorem extrudingLen_nonneg (ls : List GCodeLine) : 0 ≤ extrudingLen ls := by
  induction ls with
  | nil => exact le_refl 0
  | cons l ls ih =>
    unfold extrudingLen
    by_cases hB : extrudingHorizontal l
    · exact add_nonneg (by rw [if_pos hB]; exact le_of_lt hB.2.2.1) ih
    · rw [if_neg hB]
      simpa using ih

theorem extrudingLen_cons_pos {l : GCodeLine} (ls : List GCodeLine)
    (h : extrudingHorizontal l) :
    extrudingLen (l :: ls) = l.distXY + extrudingLen ls := by
  show (if extrudingHorizontal l then l.distXY else 0) + extrudingLen ls = _
  rw [if_pos h]

theorem extrudingLen_cons_neg {l : GCodeLine} (ls : List GCodeLine)
    (h : ¬ extrudingHorizontal l) :
    extrudingLen (l :: ls) = extrudingLen ls := by
  show (if extrudingHorizontal l then l.distXY else 0) + extrudingLen ls = _
  rw [if_neg h, zero_add]

theorem rampZs_mem_lower (z L h : ℝ) (hL : 0 < L) (hh : 0 ≤ h) (ls : List GCodeLine) :
    ∀ len x, x ∈ rampZs z L h len ls → z + len / L * h ≤ x := by
  induction ls with
  | nil => intro len x hx; simp [rampZs, overExtruding] at hx
  | cons l ls ih =>
    intro len x hx
    by_cases hB : extrudingHorizontal l
    · rw [rampZs, overExtruding_cons_pos _ _ _ _ hB] at hx
      have hmono : z + len / L * h ≤ z + (len + l.distXY) / L * h := by
        have hq : len / L ≤ (len + l.distXY) / L :=
          (div_le_div_iff_of_pos_right hL).mpr (by linarith [hB.2.2.1])
        nlinarith
      rcases List.mem_cons.mp hx with rfl | hx
      · exact hmono
      · exact le_trans hmono (ih (len + l.distXY) x hx)
    · rw [rampZs, overExtruding_cons_neg _ _ _ _ hB] at hx
      exact ih len x hx

theorem rampZs_mem_lower_strict (z L h : ℝ) (hL : 0 < L) (hh : 0 < h) (ls : List GCodeLine) :
    ∀ len x, x ∈ rampZs z L h len ls → z + len / L * h < x := by
  induction ls with
  | nil => intro len x hx; simp [rampZs, overExtruding] at hx
  | cons l ls ih =>
    intro len x hx
    by_cases hB : extrudingHorizontal l
    · rw [rampZs, overExtruding_cons_pos _ _ _ _ hB] at hx
      have hmono : z + len / L * h < z + (len + l.distXY) / L * h := by
        have hq : len / L < (len + l.distXY) / L :=
          (div_lt_div_iff_of_pos_right hL).mpr (by linarith [hB.2.2.1])
        nlinarith
      rcases List.mem_cons.mp hx with rfl | hx
      · exact hmono
      · exact lt_of_lt_of_le hmono (le_of_lt (ih (len + l.distXY) x hx))
    · rw [rampZs, overExtruding_cons_neg _ _ _ _ hB] at hx
      exact ih len x hx

theorem rampZs_chain (z L h : ℝ) (hL : 0 < L) (hh : 0 ≤ h) (ls : List GCodeLine) :
    ∀ len, List.Chain' (· ≤ ·) (rampZs z L h len ls) := by
  induction ls with
  | nil => intro len; simp [rampZs, overExtruding]
  | cons l ls ih =>
    intro len
    by_cases hB : extrudingHorizontal l
    · rw [rampZs, overExtruding_cons_pos _ _ _ _ hB]
      refine List.chain'_cons'.mpr ⟨?_, ih (len + l.distXY)⟩
      intro b hb
      exact rampZs_mem_lower z L h hL hh ls (len + l.distXY) b (List.mem_of_mem_head? hb)
    · rw [rampZs, overExtruding_cons_neg _ _ _ _ hB]
      exact ih len

theorem rampZs_mem_upper (z L h : ℝ) (hL : 0 < L) (hh : 0 ≤ h) (ls : List GCodeLine) :
    ∀ len x, x ∈ rampZs z L h len ls → x ≤ z + (len + extrudingLen ls) / L * h := by
  induction ls with
  | nil => intro len x hx; simp [rampZs, overExtruding] at hx
  | cons l ls ih =>
    intro len x hx
    by_cases hB : extrudingHorizontal l
    · rw [rampZs, overExtruding_cons_pos _ _ _ _ hB] at hx
      rw [extrudingLen_cons_pos ls hB]
      rcases List.mem_cons.mp hx with rfl | hx
      · have hq : (len + l.distXY) / L ≤ (len + (l.distXY + extrudingLen ls)) / L :=
          (div_le_div_iff_of_pos_right hL).mpr (by linarith [extrudingLen_nonneg ls])
        nlinarith
      · have := ih (len + l.distXY) x hx
        have harith : len + l.distXY + extrudingLen ls = len + (l.distXY + extrudingLen ls) := by
          ring
        rwa [harith] at this
    · rw [rampZs, overExtruding_cons_neg _ _ _ _ hB] at hx
      rw [extrudingLen_cons_neg ls hB]
      exact ih len x hx

theorem lastWithCum_none_iff (ls : List GCodeLine) :
    ∀ len, lastWithCum len ls = none ↔ ∀ l ∈ ls, ¬ extrudingHorizontal l := by
  induction ls with
  | nil => intro len; simp [lastWithCum]
  | cons l ls ih =>
    intro len
    by_cases hB : extrudingHorizontal l
    · constructor
      · intro hn
        unfold lastWithCum at hn
        rw [if_pos hB] at hn
        rcases hr : lastWithCum (len + l.distXY) ls with _ | r <;> simp [hr] at hn
      · intro hall
        exact absurd hB (hall l (List.mem_cons_self l ls))
    · unfold lastWithCum
      rw [if_neg hB]
      rw [ih len]
      constructor
      · intro hall l' hm
        rcases List.mem_cons.mp hm with rfl | hm
        · exact hB
        · exact hall l' hm
      · intro hall l' hm
        exact hall l' (List.mem_cons_of_mem l hm)

theorem overExtruding_eq_nil_iff (g : ℝ → GCodeLine → ℝ) (ls : List GCodeLine) :
    ∀ len, overExtruding g len ls = [] ↔ lastWithCum len ls = none := by
  induction ls with
  | nil => intro len; simp [overExtruding, lastWithCum]
  | cons l ls ih =>
    intro len
    by_cases hB : extrudingHorizontal l
    · rw [overExtruding_cons_pos _ _ _ _ hB]
      unfold lastWithCum
      rw [if_pos hB]
      rcases hr : lastWithCum (len + l.distXY) ls with _ | r <;> simp [hr]
    · rw [overExtruding_cons_neg _ _ _ _ hB]
      unfold lastWithCum
      rw [if_neg hB]
      exact ih len

theorem overExtruding_getLast (g : ℝ → GCodeLine → ℝ) (ls : List GCodeLine) :
    ∀ len, (overExtruding g len ls).getLast? =
      (lastWithCum len ls).map (fun r => g r.1 r.2) := by
  induction ls with
  | nil => intro len; simp [overExtruding, lastWithCum]
  | cons l ls ih =>
    intro len
    by_cases hB : extrudingHorizontal l
    · rw [overExtruding_cons_pos _ _ _ _ hB]
      unfold lastWithCum
      rw [if_pos hB]
      rcases hrest : overExtruding g (len + l.distXY) ls with _ | ⟨a, rest⟩
      · have hnone : lastWithCum (len + l.distXY) ls = none :=
          (overExtruding_eq_nil_iff g ls (len + l.distXY)).mp hrest
        simp [hnone]
      · have hne : lastWithCum (len + l.distXY) ls ≠ none := by
          intro hn
          rw [(overExtruding_eq_nil_iff g ls (len + l.distXY)).mpr hn] at hrest
          exact List.cons_ne_nil a rest hrest.symm
        obtain ⟨r, hr⟩ := Option.ne_none_iff_exists'.mp hne
        rw [List.getLast?_cons_cons, ← hrest, ih (len + l.distXY), hr]
    · rw [overExtruding_cons_neg _ _ _ _ hB]
      unfold lastWithCum
      rw [if_neg hB]
      exact ih len

theorem overExtruding_head (g : ℝ → GCodeLine → ℝ) (ls : List GCodeLine) :
    ∀ len, (overExtruding g len ls).head? =
      (firstWithCum len ls).map (fun r => g r.1 r.2) := by
  induction ls with
  | nil => intro len; simp [overExtruding, firstWithCum]
  | cons l ls ih =>
    intro len
    by_cases hB : extrudingHorizontal l
    · rw [overExtruding_cons_pos _ _ _ _ hB]
      unfold firstWithCum
      rw [if_pos hB]
      simp
    · rw [overExtruding_cons_neg _ _ _ _ hB]
      unfold firstWithCum
      rw [if_neg hB]
      exact ih len

theorem lastWithCum_fst (ls : List GCodeLine) :
    ∀ len r, lastWithCum len ls = some r → r.1 = len + extrudingLen ls := by
  induction ls with
  | nil => intro len r hr; simp [lastWithCum] at hr
  | cons l ls ih =>
    intro len r hr
    by_cases hB : extrudingHorizontal l
    · unfold lastWithCum at hr
      rw [if_pos hB] at hr
      rw [extrudingLen_cons_pos ls hB]
      rcases hr' : lastWithCum (len + l.distXY) ls with _ | r'
      · rw [hr'] at hr
        simp only [Option.some.injEq] at hr
        have hnil : extrudingLen ls = 0 := by
          have hall := (lastWithCum_none_iff ls (len + l.distXY)).mp hr'
          clear hr' hr ih
          induction ls with
          | nil => rfl
          | cons a as iha =>
            rw [extrudingLen_cons_neg as (hall a (List.mem_cons_self a as))]
            exact iha fun x hx => hall x (List.mem_cons_of_mem a hx)
        rw [← hr, hnil]
        simp [add_assoc]
      · rw [hr'] at hr
        simp only [Option.some.injEq] at hr
        have hfst := ih (len + l.distXY) r' hr'
        subst hr
        rw [hfst]
        ring
    · unfold lastWithCum at hr
      rw [if_neg hB] at hr
      rw [extrudingLen_cons_neg ls hB]
      exact ih len r hr

theorem firstWithCum_fst (ls : List GCodeLine) :
    ∀ len r, firstWithCum len ls = some r →
      r.1 = len + r.2.distXY ∧ extrudingHorizontal r.2 := by
  induction ls with
  | nil => intro len r hr; simp [firstWithCum] at hr
  | cons l ls ih =>
    intro len r hr
    by_cases hB : extrudingHorizontal l
    · unfold firstWithCum at hr
      rw [if_pos hB] at hr
      simp only [Option.some.injEq] at hr
      rw [← hr]
      exact ⟨rfl, hB⟩
    · unfold firstWithCum at hr
      rw [if_neg hB] at hr
      exact ih len r hr

/-- Refinement of the measuring pass: under well-formed lines the
accumulated `total_layer_length` is the total horizontal length of the
extruding horizontal commands. -/
theorem measureLayer_total (ls : List GCodeLine) :
    ∀ s, (∀ l ∈ ls, wfLine l) →
      (measureLayer s ls).total = s.total + extrudingLen ls := by
  induction ls with
  | nil => intro s _; simp [measureLayer, extrudingLen]
  | cons l ls ih =>
    intro s hwf
    have hw := hwf l (List.mem_cons_self l ls)
    have hwf' : ∀ l' ∈ ls, wfLine l' := fun l' hm => hwf l' (List.mem_cons_of_mem l hm)
    unfold measureLayer
    by_cases hc : l.cmdG1 = true
    · by_cases he : 0 < l.distE
      · rw [if_pos hc, if_pos he, ih _ hwf']
        by_cases hd : 0 < l.distXY
        · have hE := (hw.2.2 hd).mp he
          have hz : l.zF = none := by
            cases hzf : l.zF with
            | some v =>
              have := hw.2.1 (by simp [hzf])
              rw [this] at hE
              simp at hE
            | none => rfl
          rw [extrudingLen_cons_pos ls ⟨hc, hz, hd, hE.2⟩]
          simp
          ring
        · have hd0 : l.distXY = 0 := le_antisymm (not_lt.mp hd) hw.1
          rw [extrudingLen_cons_neg ls fun hB => hd hB.2.2.1]
          simp [hd0]
      · have hnB : ¬ extrudingHorizontal l := by
          intro hB
          exact he ((hw.2.2 hB.2.2.1).mpr ⟨hc, hB.2.2.2⟩)
        rw [extrudingLen_cons_neg ls hnB]
        by_cases hzf : l.zF.isSome
        · rw [if_pos hc, if_neg he, if_pos hzf, ih _ hwf']
        · rw [if_pos hc, if_neg he, if_neg hzf, ih _ hwf']
    · have hnB : ¬ extrudingHorizontal l := fun hB => hc hB.1
      rw [if_neg hc, extrudingLen_cons_neg ls hnB, ih _ hwf']

/-- `process_layer` on an enabled instance, unfolded to its two passes. -/
theorem process_layer_enabled (sv : SpiralVase) (ls : List GCodeLine) (last : Bool)
    (hen : sv.m_enabled = true) :
    process_layer sv ls last =
      ((rewriteLayer (processCtx sv (measureLayer initMeasure ls) last) 0 []
          (initLastPoint sv.m_previous_layer) ls).new_gcode ++
        (rewriteLayer (processCtx sv (measureLayer initMeasure ls) last) 0 []
          (initLastPoint sv.m_previous_layer) ls).transition_gcode,
        ⟨sv.m_enabled, sv.m_smooth_spiral, sv.m_transition_layer,
          sv.use_relative_e_distances,
          some (rewriteLayer (processCtx sv (measureLayer initMeasure ls) last) 0 []
            (initLastPoint sv.m_previous_layer) ls).current_layer⟩) := by
  unfold process_layer
  rw [if_pos hen]

/-! ## The claims -/

/-- C2: on an enabled layer the rewriter assigns to every extruding
horizontal command the Z value `start_z + (len / total_xy_length) *
total_z_height`, `len` being the running sum of horizontal displacements
of the extruding commands up to and including it — the sequence of
assigned Z values is exactly the spec's ramp sequence (`rampZs`); in
particular for two extruding commands of lengths 3 and 7, rise 2 and
entry Z 5 the assigned values are 5.6 and 7.0 (see the witness). -/
theorem spiral_c2 (sv : SpiralVase) (ls : List GCodeLine) (last : Bool)
    (hen : sv.m_enabled = true)
    (hz : ∀ l ∈ ls, l.zF.isSome = true → l.eF = none)
    (hL : 0 < (measureLayer initMeasure ls).total) :
    (process_layer sv ls last).1.filterMap extrZ =
      rampZs ((measureLayer initMeasure ls).z - (measureLayer initMeasure ls).height)
        (measureLayer initMeasure ls).total (measureLayer initMeasure ls).height 0 ls := by
  rw [process_layer_enabled sv ls last hen]
  rw [List.filterMap_append,
    rewriteLayer_new_extrZ (processCtx sv (measureLayer initMeasure ls) last) ls 0 []
      (initLastPoint sv.m_previous_layer) hz,
    rewriteLayer_trans_extrZ (processCtx sv (measureLayer initMeasure ls) last) ls 0 []
      (initLastPoint sv.m_previous_layer),
    List.append_nil]
  rfl

/-- Witness for C2: the spec's own example — extruding lengths 3 and 7,
vertical rise 2, entry Z 5, no smoothing, no transition or final flag —
yields assigned Z values 5.6 and 7.0. -/
theorem spiral_c2_witness :
    (0 : ℝ) < (measureLayer initMeasure
        [⟨true, 0, 0, some 7, none, 0, 2, 0, 7⟩,
         ⟨true, 3, 0, none, some 1, 3, 0, 1, 0⟩,
         ⟨true, 10, 0, none, some 1, 7, 0, 1, 0⟩]).total ∧
    (process_layer ⟨true, false, false, false, none⟩
        [⟨true, 0, 0, some 7, none, 0, 2, 0, 7⟩,
         ⟨true, 3, 0, none, some 1, 3, 0, 1, 0⟩,
         ⟨true, 10, 0, none, some 1, 7, 0, 1, 0⟩] false).1.filterMap extrZ =
      [28 / 5, 7] := by
  constructor
  · norm_num [measureLayer, initMeasure]
  · rw [spiral_c2 ⟨true, false, false, false, none⟩ _ false rfl
      (by intro l hl; fin_cases hl <;> simp)
      (by norm_num [measureLayer, initMeasure])]
    norm_num [measureLayer, initMeasure, rampZs, overExtruding, extrudingHorizontal]

/-- C9: a disabled instance passes every layer through unchanged (the
C++ only feeds the text to the position-tracking reader and returns it). -/
theorem spiral_c9 (sv : SpiralVase) (ls : List GCodeLine) (last : Bool)
    (h : sv.m_enabled = false) :
    process_layer sv ls last = (ls, sv) := by
  unfold process_layer
  rw [if_neg (by simp [h])]

/-- Witness for C9: a disabled instance leaves a concrete layer
untouched. -/
theorem spiral_c9_witness :
    (⟨false, true, true, true, some [⟨1, 1⟩]⟩ : SpiralVase).m_enabled = false ∧
    process_layer ⟨false, true, true, true, some [⟨1, 1⟩]⟩
        [⟨true, 1, 2, none, some 3, 4, 0, 3, 0⟩, ⟨false, 0, 0, none, none, 0, 0, 0, 0⟩] true =
      ([⟨true, 1, 2, none, some 3, 4, 0, 3, 0⟩, ⟨false, 0, 0, none, none, 0, 0, 0, 0⟩],
        ⟨false, true, true, true, some [⟨1, 1⟩]⟩) :=
  ⟨rfl, spiral_c9 _ _ _ rfl⟩

/-- C1 (code-level behaviour at the claimed guard): a layer whose only
E-carrying move does not extrude (`dist_E = -1 < 0`, a retracting travel
move of length 4) measures `total_layer_length = 0`, yet the enabled
rewriter still reaches the `factor = len / total` division and modifies
the motion commands (both get their Z field set) instead of passing the
layer through: no zero-length guard exists in the code. -/
theorem spiral_c1_unguarded :
    (measureLayer initMeasure
        [⟨true, 0, 0, some 3, none, 0, 1, 0, 3⟩,
         ⟨true, 5, 0, none, some 2, 4, 0, -1, 0⟩]).total = 0 ∧
    (process_layer ⟨true, false, false, true, none⟩
        [⟨true, 0, 0, some 3, none, 0, 1, 0, 3⟩,
         ⟨true, 5, 0, none, some 2, 4, 0, -1, 0⟩] false).1.map GCodeLine.zF =
      [some 2, some 2] ∧
    ([⟨true, 0, 0, some 3, none, 0, 1, 0, 3⟩,
      ⟨true, 5, 0, none, some 2, 4, 0, -1, 0⟩] : List GCodeLine).map GCodeLine.zF =
      [some 3, none] := by
  refine ⟨by norm_num [measureLayer, initMeasure], ?_, by simp⟩
  norm_num [process_layer, measureLayer, initMeasure, processCtx, initLastPoint,
    rewriteLayer, rewriteStep, GCodeLine.has_z, GCodeLine.has_e, GCodeLine.setZ,
    GCodeLine.e]

/-- C3 (amended): on an active well-formed layer the assigned Z values
are non-decreasing, lie within `(start_z, start_z + total_z_height]`
(strictly above `start_z` when the height is positive), the last equals
`start_z + total_z_height`, and the first equals
`start_z + (d1 / total_xy_length) * total_z_height` where `d1` is the
first extruding command's length — not `start_z` itself. -/
theorem spiral_c3 (sv : SpiralVase) (ls : List GCodeLine) (last : Bool)
    (ms : MeasureState) (z0 L h : ℝ) (zs : List ℝ)
    (hen : sv.m_enabled = true) (hwf : ∀ l ∈ ls, wfLine l)
    (hms : measureLayer initMeasure ls = ms)
    (hz0 : z0 = ms.z - ms.height) (hLe : L = ms.total) (hhe : h = ms.height)
    (hL : 0 < L) (hh : 0 ≤ h)
    (hzs : zs = (process_layer sv ls last).1.filterMap extrZ) :
    List.Chain' (· ≤ ·) zs ∧
    (∀ x ∈ zs, x ≤ z0 + h) ∧
    (0 < h → ∀ x ∈ zs, z0 < x) ∧
    (zs ≠ [] → zs.getLast? = some (z0 + h)) ∧
    zs.head? = (firstWithCum 0 ls).map fun r => z0 + r.2.distXY / L * h := by
  have hz : ∀ l ∈ ls, l.zF.isSome = true → l.eF = none := fun l hm => (hwf l hm).2.1
  have hzs' : zs = rampZs z0 L h 0 ls := by
    rw [hzs, process_layer_enabled sv ls last hen, hms]
    rw [List.filterMap_append,
      rewriteLayer_new_extrZ (processCtx sv ms last) ls 0 []
        (initLastPoint sv.m_previous_layer) hz,
      rewriteLayer_trans_extrZ (processCtx sv ms last) ls 0 []
        (initLastPoint sv.m_previous_layer),
      List.append_nil, hz0, hLe, hhe]
    rfl
  have hLen : extrudingLen ls = L := by
    have htot := measureLayer_total ls initMeasure hwf
    rw [hms] at htot
    rw [hLe, htot]
    simp [initMeasure]
  refine ⟨?_, ?_, ?_, ?_, ?_⟩
  · rw [hzs']
    exact rampZs_chain z0 L h hL hh ls 0
  · intro x hx
    rw [hzs'] at hx
    have hub := rampZs_mem_upper z0 L h hL hh ls 0 x hx
    rwa [zero_add, hLen, div_self (ne_of_gt hL), one_mul] at hub
  · intro hh' x hx
    rw [hzs'] at hx
    have hlb := rampZs_mem_lower_strict z0 L h hL hh' ls 0 x hx
    rwa [zero_div, zero_mul, add_zero] at hlb
  · intro hne
    rw [hzs'] at hne ⊢
    have hnn : lastWithCum 0 ls ≠ none := by
      intro hn
      exact hne ((overExtruding_eq_nil_iff _ ls 0).mpr hn)
    obtain ⟨r, hr⟩ := Option.ne_none_iff_exists'.mp hnn
    unfold rampZs
    rw [overExtruding_getLast, hr]
    have hfst := lastWithCum_fst ls 0 r hr
    rw [zero_add, hLen] at hfst
    simp [hfst, div_self (ne_of_gt hL)]
  · rw [hzs']
    unfold rampZs
    rw [overExtruding_head]
    rcases hf : firstWithCum 0 ls with _ | r
    · simp
    · have hfst := (firstWithCum_fst ls 0 r hf).1
      rw [zero_add] at hfst
      simp [hfst]

/-- Counterexample to C3 as stated: on the spec's own example layer the
first extruding command is assigned Z `5.6`, while `start_z = 5` — the
first assigned value is strictly above `start_z`, not equal to it. -/
theorem spiral_c3_counterexample :
    ((process_layer ⟨true, false, false, false, none⟩
        [⟨true, 0, 0, some 7, none, 0, 2, 0, 7⟩,
         ⟨true, 3, 0, none, some 1, 3, 0, 1, 0⟩,
         ⟨true, 10, 0, none, some 1, 7, 0, 1, 0⟩] false).1.filterMap extrZ).head? =
      some (28 / 5) ∧
    (measureLayer initMeasure
        [⟨true, 0, 0, some 7, none, 0, 2, 0, 7⟩,
         ⟨true, 3, 0, none, some 1, 3, 0, 1, 0⟩,
         ⟨true, 10, 0, none, some 1, 7, 0, 1, 0⟩]).z -
      (measureLayer initMeasure
        [⟨true, 0, 0, some 7, none, 0, 2, 0, 7⟩,
         ⟨true, 3, 0, none, some 1, 3, 0, 1, 0⟩,
         ⟨true, 10, 0, none, some 1, 7, 0, 1, 0⟩]).height = 5 ∧
    (28 / 5 : ℝ) ≠ 5 := by
  refine ⟨?_, by norm_num [measureLayer, initMeasure], by norm_num⟩
  norm_num [process_layer, measureLayer, initMeasure, processCtx, initLastPoint,
    rewriteLayer, rewriteStep, GCodeLine.has_z, GCodeLine.has_e, GCodeLine.setZ,
    GCodeLine.e, extrZ]

/-- Witness for the amended C3 at the spec's example layer. -/
theorem spiral_c3_witness :
    (∀ l ∈ ([⟨true, 0, 0, some 7, none, 0, 2, 0, 7⟩,
              ⟨true, 3, 0, none, some 1, 3, 0, 1, 0⟩,
              ⟨true, 10, 0, none, some 1, 7, 0, 1, 0⟩] : List GCodeLine), wfLine l) ∧
    (0 : ℝ) < 10 ∧
    List.Chain' (· ≤ ·)
      ((process_layer ⟨true, false, false, false, none⟩
          [⟨true, 0, 0, some 7, none, 0, 2, 0, 7⟩,
           ⟨true, 3, 0, none, some 1, 3, 0, 1, 0⟩,
           ⟨true, 10, 0, none, some 1, 7, 0, 1, 0⟩] false).1.filterMap extrZ) ∧
    (∀ x ∈ (process_layer ⟨true, false, false, false, none⟩
          [⟨true, 0, 0, some 7, none, 0, 2, 0, 7⟩,
           ⟨true, 3, 0, none, some 1, 3, 0, 1, 0⟩,
           ⟨true, 10, 0, none, some 1, 7, 0, 1, 0⟩] false).1.filterMap extrZ,
        x ≤ 5 + 2) := by
  have hwf : ∀ l ∈ ([⟨true, 0, 0, some 7, none, 0, 2, 0, 7⟩,
      ⟨true, 3, 0, none, some 1, 3, 0, 1, 0⟩,
      ⟨true, 10, 0, none, some 1, 7, 0, 1, 0⟩] : List GCodeLine), wfLine l := by
    intro l hl
    fin_cases hl <;> norm_num [wfLine]
  have hms : measureLayer initMeasure
      [⟨true, 0, 0, some 7, none, 0, 2, 0, 7⟩,
       ⟨true, 3, 0, none, some 1, 3, 0, 1, 0⟩,
       ⟨true, 10, 0, none, some 1, 7, 0, 1, 0⟩] = ⟨10, 2, 7, true⟩ := by
    norm_num [measureLayer, initMeasure]
  have hmain := spiral_c3 ⟨true, false, false, false, none⟩
    [⟨true, 0, 0, some 7, none, 0, 2, 0, 7⟩,
     ⟨true, 3, 0, none, some 1, 3, 0, 1, 0⟩,
     ⟨true, 10, 0, none, some 1, 7, 0, 1, 0⟩] false ⟨10, 2, 7, true⟩ 5 10 2 _
    rfl hwf hms (by norm_num) rfl rfl (by norm_num) (by norm_num) rfl
  exact ⟨hwf, by norm_num, hmain.1, hmain.2.1⟩

theorem mainEs_false_eq_origEs (L : ℝ) (ls : List GCodeLine) :
    ∀ len, mainEs false L len ls = origEs ls := by
  induction ls with
  | nil => intro len; rfl
  | cons l ls ih =>
    intro len
    by_cases hB : extrudingHorizontal l
    · rw [mainEs, overExtruding_cons_pos _ _ _ _ hB]
      unfold origEs
      rw [List.filterMap_cons]
      simp only [if_pos hB, eF_eq_some_e hB.2.2.2]
      rw [← origEs]
      simp only [Bool.false_eq_true, if_false]
      simp
      exact ih (len + l.distXY)
    · rw [mainEs, overExtruding_cons_neg _ _ _ _ hB]
      unfold origEs
      rw [List.filterMap_cons]
      simp only [if_neg hB]
      rw [← origEs]
      exact ih len

/-- C4 (amended): on the job's last layer without transition tapering
(and without smoothing rescaling) each extruding command's own extrusion
is unmodified in `new_gcode`; a clone scaled by `1 - factor` is appended
to the side buffer — the clone is taken before the Z ramp, so it carries
the command's original (absent) Z field rather than the ramped value —
the buffer is emitted only after the whole rewritten layer, and is empty
on non-final layers. -/
theorem spiral_c4 (ctx : RewriteCtx) (len : ℝ) (cl : List SpiralPoint) (lp : SpiralPoint)
    (ls : List GCodeLine)
    (htr : ctx.transition = false) (hlast : ctx.last_layer = true)
    (hsm : ctx.smooth_spiral = false)
    (hz : ∀ l ∈ ls, l.zF.isSome = true → l.eF = none) :
    (rewriteLayer ctx len cl lp ls).new_gcode.filterMap mainE = origEs ls ∧
    (rewriteLayer ctx len cl lp ls).transition_gcode.filterMap sideE =
      rampDownEs ctx.total_layer_length len ls ∧
    (∀ l' ∈ (rewriteLayer ctx len cl lp ls).transition_gcode,
      l'.cmdG1 = true → l'.zF = none) ∧
    (∀ ctx2 : RewriteCtx, ∀ len2 cl2 lp2 ls2, ctx2.last_layer = false →
      (rewriteLayer ctx2 len2 cl2 lp2 ls2).transition_gcode = []) ∧
    (∀ sv : SpiralVase, ∀ g last2, sv.m_enabled = true →
      (process_layer sv g last2).1 =
        (rewriteLayer (processCtx sv (measureLayer initMeasure g) last2) 0 []
          (initLastPoint sv.m_previous_layer) g).new_gcode ++
        (rewriteLayer (processCtx sv (measureLayer initMeasure g) last2) 0 []
          (initLastPoint sv.m_previous_layer) g).transition_gcode) := by
  refine ⟨?_, ?_, ?_, ?_, ?_⟩
  · rw [rewriteLayer_new_mainE ctx hsm ls len cl lp hz, htr]
    exact mainEs_false_eq_origEs ctx.total_layer_length ls len
  · rw [rewriteLayer_trans_sideE ctx ls len cl lp, if_pos ⟨htr, hlast⟩]
  · exact rewriteLayer_trans_zF ctx ls len cl lp
  · intro ctx2 len2 cl2 lp2 ls2 h2
    exact rewriteLayer_trans_nonlast ctx2 h2 ls2 len2 cl2 lp2
  · intro sv g last2 hen
    rw [process_layer_enabled sv g last2 hen]

/-- Counterexample to C4 as stated: on a concrete last layer the side
buffer's clone carries no Z field at all (`none`), while the rewritten
main-output command's ramped Z is `3` — the clone does not preserve the
already-ramped Z (it is cloned before the ramp). -/
theorem spiral_c4_counterexample :
    ((rewriteLayer (processCtx ⟨true, false, false, true, none⟩
        (measureLayer initMeasure
          [⟨true, 0, 0, some 3, none, 0, 1, 0, 3⟩,
           ⟨true, 4, 0, none, some 6, 5, 0, 6, 0⟩]) true) 0 []
        (initLastPoint none)
        [⟨true, 0, 0, some 3, none, 0, 1, 0, 3⟩,
         ⟨true, 4, 0, none, some 6, 5, 0, 6, 0⟩]).transition_gcode).map GCodeLine.zF =
      [none] ∧
    ((rewriteLayer (processCtx ⟨true, false, false, true, none⟩
        (measureLayer initMeasure
          [⟨true, 0, 0, some 3, none, 0, 1, 0, 3⟩,
           ⟨true, 4, 0, none, some 6, 5, 0, 6, 0⟩]) true) 0 []
        (initLastPoint none)
        [⟨true, 0, 0, some 3, none, 0, 1, 0, 3⟩,
         ⟨true, 4, 0, none, some 6, 5, 0, 6, 0⟩]).new_gcode).filterMap extrZ = [3] ∧
    [(none : Option ℝ)] ≠ [some (3 : ℝ)] := by
  refine ⟨?_, ?_, by simp⟩ <;>
    norm_num [measureLayer, initMeasure, processCtx, initLastPoint, rewriteLayer,
      rewriteStep, GCodeLine.has_z, GCodeLine.has_e, GCodeLine.setZ, GCodeLine.setE,
      GCodeLine.e, extrZ, List.filterMap_cons]

/-- Witness for the amended C4 on a concrete last layer. -/
theorem spiral_c4_witness :
    ((⟨2, 5, 1, false, true, false, 1, none⟩ : RewriteCtx).transition = false) ∧
    ((⟨2, 5, 1, false, true, false, 1, none⟩ : RewriteCtx).last_layer = true) ∧
    (∀ l ∈ ([⟨true, 0, 0, some 3, none, 0, 1, 0, 3⟩,
              ⟨true, 4, 0, none, some 6, 5, 0, 6, 0⟩] : List GCodeLine),
      l.zF.isSome = true → l.eF = none) ∧
    (rewriteLayer ⟨2, 5, 1, false, true, false, 1, none⟩ 0 [] ⟨0, 0⟩
        [⟨true, 0, 0, some 3, none, 0, 1, 0, 3⟩,
         ⟨true, 4, 0, none, some 6, 5, 0, 6, 0⟩]).new_gcode.filterMap mainE =
      origEs [⟨true, 0, 0, some 3, none, 0, 1, 0, 3⟩,
              ⟨true, 4, 0, none, some 6, 5, 0, 6, 0⟩] ∧
    (rewriteLayer ⟨2, 5, 1, false, true, false, 1, none⟩ 0 [] ⟨0, 0⟩
        [⟨true, 0, 0, some 3, none, 0, 1, 0, 3⟩,
         ⟨true, 4, 0, none, some 6, 5, 0, 6, 0⟩]).transition_gcode.filterMap sideE =
      rampDownEs 5 0 [⟨true, 0, 0, some 3, none, 0, 1, 0, 3⟩,
                      ⟨true, 4, 0, none, some 6, 5, 0, 6, 0⟩] := by
  have hz : ∀ l ∈ ([⟨true, 0, 0, some 3, none, 0, 1, 0, 3⟩,
      ⟨true, 4, 0, none, some 6, 5, 0, 6, 0⟩] : List GCodeLine),
      l.zF.isSome = true → l.eF = none := by
    intro l hl
    fin_cases hl <;> simp
  have h := spiral_c4 ⟨2, 5, 1, false, true, false, 1, none⟩ 0 [] ⟨0, 0⟩
    [⟨true, 0, 0, some 3, none, 0, 1, 0, 3⟩,
     ⟨true, 4, 0, none, some 6, 5, 0, 6, 0⟩] rfl rfl rfl hz
  exact ⟨rfl, rfl, hz, h.1, h.2.1⟩

/-- C5: transition tapering is applied exactly when the layer is the
designated transition layer and extrusion is relative; on such a layer
(smoothing off) the extrusion values are `e * factor` — the first tends
to `0` with its own length (`e1 * (d1 / L)`) and the last equals the
original nominal value; otherwise the extrusion values are unmodified. -/
theorem spiral_c5 (sv : SpiralVase) (ls : List GCodeLine) (last : Bool)
    (ms : MeasureState) (L : ℝ) (es : List ℝ)
    (hen : sv.m_enabled = true) (hsm : sv.m_smooth_spiral = false)
    (hwf : ∀ l ∈ ls, wfLine l)
    (hms : measureLayer initMeasure ls = ms) (hLe : L = ms.total) (hL : 0 < L)
    (hes : es = (process_layer sv ls last).1.filterMap mainE) :
    (sv.m_transition_layer = true → sv.use_relative_e_distances = true →
      es = mainEs true L 0 ls ∧
      es.head? = ((firstWithCum 0 ls).map fun r => r.2.e * (r.2.distXY / L)) ∧
      es.getLast? = ((lastWithCum 0 ls).map fun r => r.2.e)) ∧
    ((sv.m_transition_layer = false ∨ sv.use_relative_e_distances = false) →
      es = origEs ls) := by
  have hz : ∀ l ∈ ls, l.zF.isSome = true → l.eF = none := fun l hm => (hwf l hm).2.1
  have hsm' : (processCtx sv ms last).smooth_spiral = false := hsm
  have hes' : es = mainEs (sv.m_transition_layer && sv.use_relative_e_distances) L 0 ls := by
    rw [hes, process_layer_enabled sv ls last hen, hms]
    rw [List.filterMap_append,
      rewriteLayer_new_mainE (processCtx sv ms last) hsm' ls 0 []
        (initLastPoint sv.m_previous_layer) hz,
      rewriteLayer_trans_mainE (processCtx sv ms last) ls 0 []
        (initLastPoint sv.m_previous_layer),
      List.append_nil, hLe]
    rfl
  have hLen : extrudingLen ls = L := by
    have htot := measureLayer_total ls initMeasure hwf
    rw [hms] at htot
    rw [hLe, htot]
    simp [initMeasure]
  constructor
  · intro h1 h2
    rw [h1, h2] at hes'
    refine ⟨hes', ?_, ?_⟩
    · rw [hes']
      unfold mainEs
      rw [overExtruding_head]
      rcases hf : firstWithCum 0 ls with _ | r
      · simp
      · have hfst := (firstWithCum_fst ls 0 r hf).1
        rw [zero_add] at hfst
        simp [hfst]
    · rw [hes']
      unfold mainEs
      rw [overExtruding_getLast]
      rcases hf : lastWithCum 0 ls with _ | r
      · simp
      · have hfst := lastWithCum_fst ls 0 r hf
        rw [zero_add, hLen] at hfst
        simp [hfst, div_self (ne_of_gt hL)]
  · intro h
    have hfalse : (sv.m_transition_layer && sv.use_relative_e_distances) = false := by
      rcases h with h | h <;> simp [h]
    rw [hfalse] at hes'
    rw [hes', mainEs_false_eq_origEs L ls 0]

/-- Witness for C5: a relative-extrusion transition layer with extrusion
values 2 and 4 over lengths 3 and 7 tapers to `[0.6, 4]` — the last
command keeps its nominal value. -/
theorem spiral_c5_witness :
    (⟨true, false, true, true, none⟩ : SpiralVase).m_transition_layer = true ∧
    (∀ l ∈ ([⟨true, 0, 0, some 7, none, 0, 2, 0, 7⟩,
              ⟨true, 3, 0, none, some 2, 3, 0, 2, 0⟩,
              ⟨true, 10, 0, none, some 4, 7, 0, 4, 0⟩] : List GCodeLine), wfLine l) ∧
    (0 : ℝ) < 10 ∧
    (process_layer ⟨true, false, true, true, none⟩
        [⟨true, 0, 0, some 7, none, 0, 2, 0, 7⟩,
         ⟨true, 3, 0, none, some 2, 3, 0, 2, 0⟩,
         ⟨true, 10, 0, none, some 4, 7, 0, 4, 0⟩] false).1.filterMap mainE =
      [3 / 5, 4] := by
  have hwf : ∀ l ∈ ([⟨true, 0, 0, some 7, none, 0, 2, 0, 7⟩,
      ⟨true, 3, 0, none, some 2, 3, 0, 2, 0⟩,
      ⟨true, 10, 0, none, some 4, 7, 0, 4, 0⟩] : List GCodeLine), wfLine l := by
    intro l hl
    fin_cases hl <;> norm_num [wfLine]
  have hms : measureLayer initMeasure
      [⟨true, 0, 0, some 7, none, 0, 2, 0, 7⟩,
       ⟨true, 3, 0, none, some 2, 3, 0, 2, 0⟩,
       ⟨true, 10, 0, none, some 4, 7, 0, 4, 0⟩] = ⟨10, 2, 7, true⟩ := by
    norm_num [measureLayer, initMeasure]
  have h := spiral_c5 ⟨true, false, true, true, none⟩
    [⟨true, 0, 0, some 7, none, 0, 2, 0, 7⟩,
     ⟨true, 3, 0, none, some 2, 3, 0, 2, 0⟩,
     ⟨true, 10, 0, none, some 4, 7, 0, 4, 0⟩] false ⟨10, 2, 7, true⟩ 10 _
    rfl rfl hwf hms rfl (by norm_num) rfl
  refine ⟨rfl, hwf, by norm_num, ?_⟩
  rw [(h.1 rfl rfl).1]
  norm_num [mainEs, overExtruding, extrudingHorizontal, GCodeLine.e]

/-- C6: smoothing behaviour of one extruding horizontal command.  When
smoothing is off, or no previous layer exists, or the nearest-point
lookup does not trigger, the command's X/Y are unchanged and its
extrusion is the (possibly transition-scaled) input value.  When the
lookup finds a reference closer than the threshold, X/Y become
`factor * p + (1 - factor) * nearest` and the extrusion is scaled by
exactly `new_segment_length / original_segment_length`, the new length
being the distance from the last emitted point to the blended target. -/
theorem spiral_c6 (ctx : RewriteCtx) (len : ℝ) (cl : List SpiralPoint) (lp : SpiralPoint)
    (line : GCodeLine) (ev : ℝ)
    (h1 : line.cmdG1 = true) (h2 : line.zF = none) (h3 : 0 < line.distXY)
    (h4 : line.eF = some ev) :
    (ctx.smooth_spiral = false →
      ∃ l', (rewriteStep ctx len cl lp line).out_new = [l'] ∧
        l'.xv = line.xv ∧ l'.yv = line.yv ∧
        l'.eF = some (if ctx.transition = true then
          ev * ((len + line.distXY) / ctx.total_layer_length) else ev)) ∧
    (ctx.smooth_spiral = true → ctx.previous_layer = none →
      ∃ l', (rewriteStep ctx len cl lp line).out_new = [l'] ∧
        l'.xv = line.xv ∧ l'.yv = line.yv ∧
        l'.eF = some (if ctx.transition = true then
          ev * ((len + line.distXY) / ctx.total_layer_length) else ev)) ∧
    (∀ prev np fnd d, ctx.smooth_spiral = true → ctx.previous_layer = some prev →
      nearest_point_on_polygon ⟨line.xv, line.yv⟩ prev = (np, fnd, d) →
      ¬ (fnd = true ∧ d < ctx.max_xy_smoothing) →
      ∃ l', (rewriteStep ctx len cl lp line).out_new = [l'] ∧
        l'.xv = line.xv ∧ l'.yv = line.yv ∧
        l'.eF = some (if ctx.transition = true then
          ev * ((len + line.distXY) / ctx.total_layer_length) else ev)) ∧
    (∀ prev np d, ctx.smooth_spiral = true → ctx.previous_layer = some prev →
      nearest_point_on_polygon ⟨line.xv, line.yv⟩ prev = (np, true, d) →
      d < ctx.max_xy_smoothing →
      ∃ l', (rewriteStep ctx len cl lp line).out_new = [l'] ∧
        l'.xv = ((len + line.distXY) / ctx.total_layer_length) * line.xv +
          (1 - (len + line.distXY) / ctx.total_layer_length) * np.x ∧
        l'.yv = ((len + line.distXY) / ctx.total_layer_length) * line.yv +
          (1 - (len + line.distXY) / ctx.total_layer_length) * np.y ∧
        l'.eF = some ((if ctx.transition = true then
            ev * ((len + line.distXY) / ctx.total_layer_length) else ev) *
          (distance lp
            ⟨((len + line.distXY) / ctx.total_layer_length) * line.xv +
              (1 - (len + line.distXY) / ctx.total_layer_length) * np.x,
             ((len + line.distXY) / ctx.total_layer_length) * line.yv +
              (1 - (len + line.distXY) / ctx.total_layer_length) * np.y⟩ /
            line.distXY))) := by
  have h4s : line.eF.isSome = true := by rw [h4]; rfl
  have hev : line.e = ev := by rw [GCodeLine.e, h4]; rfl
  refine ⟨?_, ?_, ?_, ?_⟩
  · intro hsm
    rw [rewriteStep_extr_nosmooth ctx len cl lp line ⟨h1, h2, h3, h4s⟩ hsm]
    refine ⟨_, rfl, ?_, ?_, ?_⟩ <;>
      rcases ht : ctx.transition with _ | _ <;>
        simp [ht, GCodeLine.setZ, GCodeLine.setE, hev, h4]
  · intro hsm hp
    unfold rewriteStep
    simp only [GCodeLine.has_z, GCodeLine.has_e, h1, h2, h3, h4s, hsm, hp,
      Option.isSome_none, Bool.false_eq_true, if_true, if_false, ite_true, ite_false]
    rcases ht : ctx.transition with _ | _ <;>
      simp only [ht, Bool.false_eq_true, if_true, if_false, ite_true, ite_false] <;>
      · refine ⟨_, rfl, ?_, ?_, ?_⟩ <;>
          simp [GCodeLine.setZ, GCodeLine.setE, hev, h4]
  · intro prev np fnd d hsm hp hnp hcond
    unfold rewriteStep
    simp only [GCodeLine.has_z, GCodeLine.has_e, h1, h2, h3, h4s, hsm, hp,
      Option.isSome_none, Bool.false_eq_true, if_true, if_false, ite_true, ite_false]
    rcases ht : ctx.transition with _ | _ <;>
      simp only [ht, Bool.false_eq_true, if_true, if_false, ite_true, ite_false,
        GCodeLine.setZ, GCodeLine.setE, GCodeLine.setX, GCodeLine.setY, GCodeLine.e] <;>
      · rw [hnp, if_neg (by simpa using hcond)]
        refine ⟨_, rfl, ?_, ?_, ?_⟩ <;>
          simp [GCodeLine.setZ, GCodeLine.setE, hev, h4]
  · intro prev np d hsm hp hnp hd
    unfold rewriteStep
    simp only [GCodeLine.has_z, GCodeLine.has_e, h1, h2, h3, h4s, hsm, hp,
      Option.isSome_none, Bool.false_eq_true, if_true, if_false, ite_true, ite_false]
    have htarget : add (scale np (1 - (len + line.distXY) / ctx.total_layer_length))
        (scale ⟨line.xv, line.yv⟩ ((len + line.distXY) / ctx.total_layer_length)) =
        (⟨((len + line.distXY) / ctx.total_layer_length) * line.xv +
            (1 - (len + line.distXY) / ctx.total_layer_length) * np.x,
          ((len + line.distXY) / ctx.total_layer_length) * line.yv +
            (1 - (len + line.distXY) / ctx.total_layer_length) * np.y⟩ : SpiralPoint) := by
      simp only [add, scale, SpiralPoint.mk.injEq]
      constructor <;> ring
    rcases ht : ctx.transition with _ | _ <;>
      simp only [ht, Bool.false_eq_true, if_true, if_false, ite_true, ite_false,
        GCodeLine.setZ, GCodeLine.setE, GCodeLine.setX, GCodeLine.setY, GCodeLine.e] <;>
      · rw [hnp, if_pos (by simpa using hd), htarget]
        refine ⟨_, rfl, ?_, ?_, ?_⟩ <;>
          simp [GCodeLine.setZ, GCodeLine.setE, GCodeLine.setX, GCodeLine.setY,
            GCodeLine.e, hev, h4, mul_div_assoc]

theorem sqrt_sixty_four : Real.sqrt 64 = 8 := by
  rw [show (64 : ℝ) = 8 ^ 2 by norm_num]
  exact Real.sqrt_sq (by norm_num)

/-- Witness for C6: previous layer `[(0,0), (10,0)]`, target `(2,0)` (on
the stored segment, distance 0 < 1 triggers smoothing), `factor = 1`, so
the blended target is `(2,0)` itself; the last emitted point is `(10,0)`,
the new segment length is 8 against an original displacement of 4, and
the extrusion 3 is rescaled to 6. -/
theorem spiral_c6_witness :
    nearest_point_on_polygon ⟨2, 0⟩ [⟨0, 0⟩, ⟨10, 0⟩] = (⟨2, 0⟩, true, 0) ∧
    (0 : ℝ) < 1 ∧
    (rewriteStep ⟨0, 4, 1, false, false, true, 1, some [⟨0, 0⟩, ⟨10, 0⟩]⟩ 0 [] ⟨10, 0⟩
        ⟨true, 2, 0, none, some 3, 4, 0, 3, 0⟩).out_new.map GCodeLine.eF = [some 6] := by
  have hnp : nearest_point_on_polygon ⟨2, 0⟩ [⟨0, 0⟩, ⟨10, 0⟩] = (⟨2, 0⟩, true, 0) := by
    norm_num [nearest_point_on_polygon, npp_fold, nearest_point_on_line, subtract, add,
      scale, dot, distance, flt_max, Prod.ext_iff, SpiralPoint.mk.injEq]
  have h := (spiral_c6 ⟨0, 4, 1, false, false, true, 1, some [⟨0, 0⟩, ⟨10, 0⟩]⟩ 0 [] ⟨10, 0⟩
      ⟨true, 2, 0, none, some 3, 4, 0, 3, 0⟩ 3 rfl rfl (by norm_num) rfl).2.2.2
    [⟨0, 0⟩, ⟨10, 0⟩] ⟨2, 0⟩ 0 rfl rfl hnp (by norm_num)
  obtain ⟨l', hout, hx, hy, he⟩ := h
  refine ⟨hnp, by norm_num, ?_⟩
  rw [hout, List.map_cons, List.map_nil, he]
  norm_num [distance, sqrt_sixty_four]

/-- C7 (amended): after an enabled layer the retained point set is
replaced wholesale — with smoothing enabled it holds exactly one point
(the original target) per extruding horizontal command, in emission
order; with smoothing disabled it is replaced by the empty set. -/
theorem spiral_c7 (sv : SpiralVase) (ls : List GCodeLine) (last : Bool)
    (hen : sv.m_enabled = true) :
    (sv.m_smooth_spiral = true →
      (process_layer sv ls last).2.m_previous_layer = some (layerPoints ls)) ∧
    (sv.m_smooth_spiral = false →
      (process_layer sv ls last).2.m_previous_layer = some []) := by
  constructor <;> intro hsm <;>
    simp [process_layer_enabled sv ls last hen, rewriteLayer_current_layer,
      processCtx, hsm]

/-- Counterexample to C7 as stated: an active layer with one extruding
horizontal command but smoothing disabled retains an empty point set,
not a one-point set. -/
theorem spiral_c7_counterexample :
    (process_layer ⟨true, false, false, false, none⟩
        [⟨true, 0, 0, some 3, none, 0, 1, 0, 3⟩,
         ⟨true, 1, 2, none, some 1, 4, 0, 1, 0⟩] false).2.m_previous_layer =
      some [] ∧
    layerPoints [⟨true, 0, 0, some 3, none, 0, 1, 0, 3⟩,
                 ⟨true, 1, 2, none, some 1, 4, 0, 1, 0⟩] = [⟨1, 2⟩] ∧
    some ([] : List SpiralPoint) ≠ some [(⟨1, 2⟩ : SpiralPoint)] := by
  refine ⟨?_, ?_, by simp⟩
  · norm_num [process_layer, measureLayer, initMeasure, processCtx, initLastPoint,
      rewriteLayer, rewriteStep, GCodeLine.has_z, GCodeLine.has_e, GCodeLine.setZ,
      GCodeLine.e]
  · norm_num [layerPoints, extrudingHorizontal, List.filterMap_cons]

/-- Witness for the amended C7 with smoothing enabled. -/
theorem spiral_c7_witness :
    (⟨true, true, false, false, none⟩ : SpiralVase).m_enabled = true ∧
    (process_layer ⟨true, true, false, false, none⟩
        [⟨true, 0, 0, some 3, none, 0, 1, 0, 3⟩,
         ⟨true, 1, 2, none, some 1, 4, 0, 1, 0⟩] false).2.m_previous_layer =
      some (layerPoints [⟨true, 0, 0, some 3, none, 0, 1, 0, 3⟩,
                         ⟨true, 1, 2, none, some 1, 4, 0, 1, 0⟩]) :=
  ⟨rfl, (spiral_c7 ⟨true, true, false, false, none⟩
    [⟨true, 0, 0, some 3, none, 0, 1, 0, 3⟩,
     ⟨true, 1, 2, none, some 1, 4, 0, 1, 0⟩] false rfl).1 rfl⟩

/-- Erasing a travel move from a layer does not change the rewriting
pass. -/
theorem rewriteLayer_travel_erase (l : GCodeLine)
    (h1 : l.cmdG1 = true) (h2 : l.zF = none) (h3 : 0 < l.distXY) (h4 : l.eF = none)
    (post : List GCodeLine) (ctx2 : RewriteCtx) :
    ∀ pre len cl lp, rewriteLayer ctx2 len cl lp (pre ++ l :: post) =
      rewriteLayer ctx2 len cl lp (pre ++ post) := by
  intro pre
  induction pre with
  | nil =>
    intro len cl lp
    simp [rewriteLayer, rewriteStep_travel ctx2 len cl lp l h1 h2 h3 h4]
  | cons p ps ih =>
    intro len cl lp
    simp only [List.cons_append, rewriteLayer, List.append_eq, ih]

/-- Erasing a non-extruding, non-Z move from a layer does not change the
measuring pass. -/
theorem measureLayer_travel_erase (l : GCodeLine)
    (h1 : l.cmdG1 = true) (h2 : l.zF = none) (h5 : l.distE ≤ 0)
    (post : List GCodeLine) :
    ∀ pre s, measureLayer s (pre ++ l :: post) = measureLayer s (pre ++ post) := by
  have hne : ¬ (0 < l.distE) := not_lt.mpr h5
  intro pre
  induction pre with
  | nil =>
    intro s
    simp [measureLayer, h1, h2, hne]
  | cons p ps ih =>
    intro s
    simp only [List.cons_append, measureLayer]
    split_ifs <;> exact ih _

/-- C8 (amended): a `G1` with positive horizontal displacement, no
extrusion field and no Z field is suppressed entirely — removing it from
the layer changes neither the rewriting pass, nor the measuring pass,
nor the whole `process_layer` output of an enabled instance. -/
theorem spiral_c8 (ctx : RewriteCtx) (l : GCodeLine)
    (h1 : l.cmdG1 = true) (h2 : l.zF = none) (h3 : 0 < l.distXY) (h4 : l.eF = none)
    (h5 : l.distE ≤ 0) (pre post : List GCodeLine) :
    (∀ len cl lp, rewriteLayer ctx len cl lp (pre ++ l :: post) =
      rewriteLayer ctx len cl lp (pre ++ post)) ∧
    (∀ s, measureLayer s (pre ++ l :: post) = measureLayer s (pre ++ post)) ∧
    (∀ sv : SpiralVase, ∀ last, sv.m_enabled = true →
      process_layer sv (pre ++ l :: post) last = process_layer sv (pre ++ post) last) := by
  refine ⟨rewriteLayer_travel_erase l h1 h2 h3 h4 post ctx pre,
    measureLayer_travel_erase l h1 h2 h5 post pre, ?_⟩
  intro sv last hen
  rw [process_layer_enabled sv _ last hen, process_layer_enabled sv _ last hen,
    measureLayer_travel_erase l h1 h2 h5 post pre initMeasure,
    rewriteLayer_travel_erase l h1 h2 h3 h4 post _ pre]

/-- Counterexample to C8 as stated: a `G1` carrying a Z field as well as
a positive horizontal displacement and no extrusion field is *not*
suppressed — the `has_z` branch emits it (with Z rewritten) before the
travel-suppression test is reached. -/
theorem spiral_c8_counterexample :
    (rewriteLayer ⟨2, 5, 1, false, false, false, 1, none⟩ 0 [] ⟨0, 0⟩
        [⟨true, 3, 0, some 6, none, 3, 0, 0, 6⟩]).new_gcode.length = 1 ∧
    (0 : ℝ) < (⟨true, 3, 0, some 6, none, 3, 0, 0, 6⟩ : GCodeLine).distXY ∧
    (⟨true, 3, 0, some 6, none, 3, 0, 0, 6⟩ : GCodeLine).eF = none := by
  refine ⟨?_, by norm_num, rfl⟩
  norm_num [rewriteLayer, rewriteStep, GCodeLine.has_z, GCodeLine.setZ]

/-- Witness for the amended C8: erasing a concrete travel move from a
concrete layer leaves the rewriting pass unchanged. -/
theorem spiral_c8_witness :
    (⟨true, 1, 1, none, none, 2, 0, 0, 0⟩ : GCodeLine).cmdG1 = true ∧
    (0 : ℝ) < (⟨true, 1, 1, none, none, 2, 0, 0, 0⟩ : GCodeLine).distXY ∧
    (⟨true, 1, 1, none, none, 2, 0, 0, 0⟩ : GCodeLine).eF = none ∧
    rewriteLayer ⟨2, 5, 1, false, false, false, 1, none⟩ 0 [] ⟨0, 0⟩
        ([⟨true, 0, 0, some 3, none, 0, 1, 0, 3⟩] ++
          (⟨true, 1, 1, none, none, 2, 0, 0, 0⟩ : GCodeLine) ::
            [⟨true, 4, 0, none, some 6, 5, 0, 6, 0⟩]) =
      rewriteLayer ⟨2, 5, 1, false, false, false, 1, none⟩ 0 [] ⟨0, 0⟩
        ([⟨true, 0, 0, some 3, none, 0, 1, 0, 3⟩] ++
          [⟨true, 4, 0, none, some 6, 5, 0, 6, 0⟩]) :=
  ⟨rfl, by norm_num, rfl,
    (spiral_c8 ⟨2, 5, 1, false, false, false, 1, none⟩
      ⟨true, 1, 1, none, none, 2, 0, 0, 0⟩ rfl rfl (by norm_num) rfl (by norm_num)
      [⟨true, 0, 0, some 3, none, 0, 1, 0, 3⟩]
      [⟨true, 4, 0, none, some 6, 5, 0, 6, 0⟩]).1 0 [] ⟨0, 0⟩⟩

/-- C10: with fewer than two stored points the nearest-point lookup
reports nothing found (it returns before touching the point data), and
the extruding command is emitted with its X, Y and E untouched (only the
Z ramp applies) while its original target is still appended to the new
point set. -/
theorem spiral_c10 (ctx : RewriteCtx) (len : ℝ) (cl : List SpiralPoint) (lp : SpiralPoint)
    (line : GCodeLine) (prev : List SpiralPoint) (p : SpiralPoint)
    (h1 : line.cmdG1 = true) (h2 : line.zF = none) (h3 : 0 < line.distXY)
    (h4 : line.eF.isSome = true)
    (hsm : ctx.smooth_spiral = true) (hp : ctx.previous_layer = some prev)
    (hlen : prev.length < 2) (htr : ctx.transition = false) :
    (nearest_point_on_polygon p prev).2.1 = false ∧
    (rewriteStep ctx len cl lp line).out_new =
      [line.setZ (ctx.z + (len + line.distXY) / ctx.total_layer_length * ctx.layer_height)] ∧
    (rewriteStep ctx len cl lp line).current_layer = cl ++ [⟨line.xv, line.yv⟩] := by
  have hfound : ∀ q : SpiralPoint, (nearest_point_on_polygon q prev).2.1 = false := by
    intro q
    unfold nearest_point_on_polygon
    rw [if_pos hlen]
  refine ⟨hfound p, ?_, ?_⟩ <;>
    · unfold rewriteStep
      simp only [GCodeLine.has_z, GCodeLine.has_e, h1, h2, h3, h4, hsm, hp, htr,
        GCodeLine.setZ, GCodeLine.setE, Option.isSome_none, Bool.false_eq_true,
        if_true, if_false, ite_true, ite_false]
      rw [if_neg (by simp [hfound])]

/-- Witness for C10: a one-point previous layer never triggers
smoothing; the command is emitted with only its Z ramped and its target
is stored. -/
theorem spiral_c10_witness :
    (nearest_point_on_polygon ⟨7, 7⟩ [⟨5, 5⟩]).2.1 = false ∧
    (rewriteStep ⟨2, 4, 1, false, false, true, 1, some [⟨5, 5⟩]⟩ 0 [] ⟨0, 0⟩
        ⟨true, 1, 1, none, some 2, 4, 0, 2, 0⟩).out_new =
      [(⟨true, 1, 1, none, some 2, 4, 0, 2, 0⟩ : GCodeLine).setZ (2 + (0 + 4) / 4 * 1)] ∧
    (rewriteStep ⟨2, 4, 1, false, false, true, 1, some [⟨5, 5⟩]⟩ 0 [] ⟨0, 0⟩
        ⟨true, 1, 1, none, some 2, 4, 0, 2, 0⟩).current_layer = [] ++ [⟨1, 1⟩] :=
  spiral_c10 ⟨2, 4, 1, false, false, true, 1, some [⟨5, 5⟩]⟩ 0 [] ⟨0, 0⟩
    ⟨true, 1, 1, none, some 2, 4, 0, 2, 0⟩ [⟨5, 5⟩] ⟨7, 7⟩ rfl rfl (by norm_num) rfl
    rfl rfl (by norm_num) rfl

end Slic3r
